import Mathlib

/-!
Verification development for the MorphoScope quantification core
(`src/image_processor.py`): a shallow embedding of the structural-plasticity
pipeline (fluorescence normalization, PCA principal-axis estimation,
per-slice rotation, local/global intensity-weighted spreads), with theorems
settling the specified behavioural claims.

Numeric convention: Python/NumPy float64 arithmetic is embedded as exact real
arithmetic; `round(x, 2)` is embedded as ideal decimal rounding half-to-even.
-/

open Real

open scoped Classical

noncomputable section

namespace MorphoScope

/-- A 3D microscopy volume in (Y, X, Z) = (rows, cols, slices) layout, as the
`np.ndarray` handed to `ImageProcessor`.  `val y x z` is the voxel intensity;
only indices below the extents are ever read. -/
structure Volume where
  ny : ℕ
  nx : ℕ
  nz : ℕ
  val : ℕ → ℕ → ℕ → ℝ

/-- The voxel calibration held by `ImageProcessor.__init__` (µm per pixel on
X and Y, µm per slice on Z). -/
structure Processor where
  vx : ℝ
  vy : ℝ
  vz : ℝ

/-- Round half-to-even to the nearest integer, the tie-breaking rule of
Python's builtin `round`. -/
def roundHalfEven (r : ℝ) : ℤ :=
  if r - ⌊r⌋ < 1 / 2 then ⌊r⌋
  else if (1 : ℝ) / 2 < r - ⌊r⌋ then ⌊r⌋ + 1
  else if Even ⌊r⌋ then ⌊r⌋ else ⌊r⌋ + 1

/-- Python's `round(x, 2)`: round to the nearest multiple of 0.01, ties to the
even multiple. -/
def round2 (r : ℝ) : ℝ :=
  ((roundHalfEven (100 * r) : ℤ) : ℝ) / 100

/-- `np.sum(image_3d)`: the total intensity of the volume. -/
def sum3 (V : Volume) : ℝ :=
  ∑ y ∈ Finset.range V.ny, ∑ x ∈ Finset.range V.nx, ∑ z ∈ Finset.range V.nz, V.val y x z

/-- `ImageProcessor.calculate_fluorescence`: total intensity normalized by the
ROI pixel area and by the physical ROI area, both rounded to 2 decimals at the
API boundary. -/
def calculate_fluorescence (P : Processor) (V : Volume) (area : ℝ) : ℝ × ℝ :=
  (round2 (sum3 V / area), round2 (sum3 V / (area * (P.vx * P.vy))))

/- ### Basic rounding lemmas -/

theorem roundHalfEven_intCast (k : ℤ) : roundHalfEven (k : ℝ) = k := by
  unfold roundHalfEven
  rw [Int.floor_intCast]
  norm_num

theorem round2_of_hundredths {x : ℝ} {k : ℤ} (h : 100 * x = (k : ℝ)) : round2 x = x := by
  unfold round2
  rw [h, roundHalfEven_intCast]
  field_simp at h ⊢
  linarith

theorem round2_zero : round2 0 = 0 := by
  have : (100 : ℝ) * 0 = ((0 : ℤ) : ℝ) := by norm_num
  simpa using round2_of_hundredths this

theorem roundHalfEven_eval {r : ℝ} {f : ℤ} (hf : (f : ℝ) ≤ r) (hf2 : r < (f : ℝ) + 1)
    (hd : r - f < 1 / 2) : roundHalfEven r = f := by
  have hfl : ⌊r⌋ = f := Int.floor_eq_iff.mpr ⟨hf, hf2⟩
  unfold roundHalfEven
  rw [hfl]
  exact if_pos hd

theorem roundHalfEven_eval_up {r : ℝ} {f : ℤ} (hf : (f : ℝ) ≤ r) (hf2 : r < (f : ℝ) + 1)
    (hd : 1 / 2 < r - f) : roundHalfEven r = f + 1 := by
  have hfl : ⌊r⌋ = f := Int.floor_eq_iff.mpr ⟨hf, hf2⟩
  unfold roundHalfEven
  rw [hfl, if_neg (by linarith), if_pos hd]

/- ### Principal-Axis Estimator (`calculate_pca_rotation_angle`) -/

/-- `np.sum(image_yxz, axis=2)`: the depth-collapsed Z-projection at (row y, col x). -/
def projZ (V : Volume) (y x : ℕ) : ℝ :=
  ∑ z ∈ Finset.range V.nz, V.val y x z

/-- `np.sum(projection_z)`: the total of the Z-projection. -/
def sumProjZ (V : Volume) : ℝ :=
  ∑ y ∈ Finset.range V.ny, ∑ x ∈ Finset.range V.nx, projZ V y x

/-- `projection_z / sum_projection`: the probability-normalized projection. -/
def projNorm (V : Volume) (y x : ℕ) : ℝ :=
  projZ V y x / sumProjZ V

/-- `Mx = np.sum(XX * projection_z_norm)` with `XX[y, x] = x` (0-indexed columns). -/
def centroidX (V : Volume) : ℝ :=
  ∑ y ∈ Finset.range V.ny, ∑ x ∈ Finset.range V.nx, (x : ℝ) * projNorm V y x

/-- `My = np.sum(YY * projection_z_norm)` with `YY[y, x] = y` (0-indexed rows). -/
def centroidY (V : Volume) : ℝ :=
  ∑ y ∈ Finset.range V.ny, ∑ x ∈ Finset.range V.nx, (y : ℝ) * projNorm V y x

/-- `Cxx = np.sum(projection_z_norm * (XX - Mx)**2)`. -/
def covXX (V : Volume) : ℝ :=
  ∑ y ∈ Finset.range V.ny, ∑ x ∈ Finset.range V.nx,
    projNorm V y x * ((x : ℝ) - centroidX V) ^ 2

/-- `Cyy = np.sum(projection_z_norm * (YY - My)**2)`. -/
def covYY (V : Volume) : ℝ :=
  ∑ y ∈ Finset.range V.ny, ∑ x ∈ Finset.range V.nx,
    projNorm V y x * ((y : ℝ) - centroidY V) ^ 2

/-- `Cxy = np.sum(projection_z_norm * (XX - Mx) * (YY - My))`. -/
def covXY (V : Volume) : ℝ :=
  ∑ y ∈ Finset.range V.ny, ∑ x ∈ Finset.range V.nx,
    projNorm V y x * ((x : ℝ) - centroidX V) * ((y : ℝ) - centroidY V)

/-- Fortran `SIGN(1, p)`: +1 for p ≥ 0 (a positive zero included), −1 otherwise. -/
def fsign (p : ℝ) : ℝ :=
  if 0 ≤ p then 1 else -1

/-- Models `np.linalg.eig` (LAPACK `dgeev`) on the symmetric 2×2 matrix
`[[a, b], [b, c]]`.  Each component of the result is
(eigenvalue, eigenvector-x, eigenvector-y), in the order LAPACK emits them:

* off-diagonal zero: the eigenvalues are read off the diagonal in order, the
  eigenvectors are the standard basis — in particular the eigenvalues are NOT
  sorted by magnitude;
* otherwise `dlanv2` standardizes the block with `z = p + sign(p)·√(p² + b²)`,
  `p = (a − c)/2`, giving eigenvalues `c + z` (first) and `c − b²/z` (second)
  with Schur/eigenvector columns proportional to `(z, b)` and `(−b, z)`,
  normalized to unit Euclidean length.  The first eigenvalue pairs with the
  larger eigenvalue only when `p ≥ 0`. -/
def eig2 (a b c : ℝ) : (ℝ × ℝ × ℝ) × (ℝ × ℝ × ℝ) :=
  if b = 0 then ((a, 1, 0), (c, 0, 1))
  else
    let p := (a - c) / 2
    let z := p + fsign p * Real.sqrt (p ^ 2 + b ^ 2)
    let n := Real.sqrt (z ^ 2 + b ^ 2)
    ((c + z, z / n, b / n), (c - b ^ 2 / z, -b / n, z / n))

/-- `ImageProcessor.calculate_pca_rotation_angle`: 0.0 on an all-zero
projection, otherwise `np.arctan(eigenvectors[1, 0] / eigenvectors[0, 0]) * 180 / π`
— the single-argument arctangent of the component ratio of the FIRST
eigenvector returned by the decomposition. -/
def calculate_pca_rotation_angle (V : Volume) : ℝ :=
  if sumProjZ V = 0 then 0
  else
    let e := eig2 (covXX V) (covXY V) (covYY V)
    Real.arctan (e.1.2.2 / e.1.2.1) * 180 / π

/-- Two-argument arctangent: the angle of the point (x, y) in (−π, π]. -/
def atan2 (y x : ℝ) : ℝ :=
  if 0 < x then Real.arctan (y / x)
  else if x < 0 then
    (if 0 ≤ y then Real.arctan (y / x) + π else Real.arctan (y / x) - π)
  else
    (if 0 < y then π / 2 else if y < 0 then -π / 2 else 0)

/-- Follows the spec's words (§4.2 step 7): "the angle of the eigenvector
paired with the larger eigenvalue, measured as atan2-style arctangent of its
component ratio, converted to degrees".  Stated as a refinement target to be
compared with the code's `calculate_pca_rotation_angle`. -/
def specPrincipalAngle (V : Volume) : ℝ :=
  if sumProjZ V = 0 then 0
  else
    let e := eig2 (covXX V) (covXY V) (covYY V)
    let v := if e.1.1 < e.2.1 then e.2.2 else e.1.2
    atan2 v.2 v.1 * 180 / π

/-- Follows the claim's words for C2: the code's angle computation with the
single-argument arctangent of the ratio replaced by the two-argument
arctangent over the raw components of the same (first) eigenvector. -/
def pcaRotationAngleAtan2 (V : Volume) : ℝ :=
  if sumProjZ V = 0 then 0
  else
    let e := eig2 (covXX V) (covXY V) (covYY V)
    atan2 e.1.2.2 e.1.2.1 * 180 / π

/- ### Volume Re-aligner (`rotate_image`, scipy.ndimage.rotate, order=1) -/

/-- Zero-padded 2D lookup (scipy `mode='constant'`, `cval=0.0`). -/
def pad2 (ny nx : ℕ) (f : ℕ → ℕ → ℝ) (i j : ℤ) : ℝ :=
  if 0 ≤ i ∧ i < (ny : ℤ) ∧ 0 ≤ j ∧ j < (nx : ℤ) then f i.toNat j.toNat else 0

/-- Bilinear (spline order 1) interpolation of a zero-padded image at real
coordinates (y, x), as `scipy.ndimage.affine_transform` with `order=1`. -/
def bilinear (ny nx : ℕ) (f : ℕ → ℕ → ℝ) (y x : ℝ) : ℝ :=
  let i := ⌊y⌋
  let j := ⌊x⌋
  let dy := y - (i : ℝ)
  let dx := x - (j : ℝ)
  (1 - dy) * (1 - dx) * pad2 ny nx f i j
    + (1 - dy) * dx * pad2 ny nx f i (j + 1)
    + dy * (1 - dx) * pad2 ny nx f (i + 1) j
    + dy * dx * pad2 ny nx f (i + 1) (j + 1)

/-- Peak-to-peak (max − min) of four reals, `np.ptp` over a length-4 row. -/
def ptp4 (a b c d : ℝ) : ℝ :=
  max (max a b) (max c d) - min (min a b) (min c d)

/-- Effective radian angle of `scipy.ndimage.rotate`: the default plane
`axes=(1, 0)` is sorted to (0, 1) while negating the angle, then degrees are
converted to radians. -/
def rotRad (angleDeg : ℝ) : ℝ :=
  -angleDeg * π / 180

/-- Output row extent of `scipy.ndimage.rotate` with `reshape=True`: first row
of `rot_matrix @ [[0, 0, iy, iy], [0, ix, 0, ix]]`, peak-to-peak, plus 0.5,
truncated to int (the values are nonnegative). -/
def rotOutNy (ny nx : ℕ) (ang : ℝ) : ℕ :=
  (⌊ptp4 0 (Real.sin (rotRad ang) * nx) (Real.cos (rotRad ang) * ny)
      (Real.cos (rotRad ang) * ny + Real.sin (rotRad ang) * nx) + 1 / 2⌋).toNat

/-- Output column extent: second row of the rotated corner matrix. -/
def rotOutNx (ny nx : ℕ) (ang : ℝ) : ℕ :=
  (⌊ptp4 0 (Real.cos (rotRad ang) * nx) (-Real.sin (rotRad ang) * ny)
      (-Real.sin (rotRad ang) * ny + Real.cos (rotRad ang) * nx) + 1 / 2⌋).toNat

/-- Row offset `in_center − rot_matrix @ out_center` of the affine transform. -/
def rotOffY (ny nx : ℕ) (ang : ℝ) : ℝ :=
  ((ny : ℝ) - 1) / 2
    - (Real.cos (rotRad ang) * (((rotOutNy ny nx ang : ℝ) - 1) / 2)
       + Real.sin (rotRad ang) * (((rotOutNx ny nx ang : ℝ) - 1) / 2))

/-- Column offset of the affine transform. -/
def rotOffX (ny nx : ℕ) (ang : ℝ) : ℝ :=
  ((nx : ℝ) - 1) / 2
    - (-Real.sin (rotRad ang) * (((rotOutNy ny nx ang : ℝ) - 1) / 2)
       + Real.cos (rotRad ang) * (((rotOutNx ny nx ang : ℝ) - 1) / 2))

/-- Input row coordinate sampled for output pixel (oy, ox):
`rot_matrix @ (oy, ox) + offset`, row component. -/
def rotSrcY (ny nx : ℕ) (ang : ℝ) (oy ox : ℕ) : ℝ :=
  Real.cos (rotRad ang) * oy + Real.sin (rotRad ang) * ox + rotOffY ny nx ang

/-- Input column coordinate sampled for output pixel (oy, ox). -/
def rotSrcX (ny nx : ℕ) (ang : ℝ) (oy ox : ℕ) : ℝ :=
  -Real.sin (rotRad ang) * oy + Real.cos (rotRad ang) * ox + rotOffX ny nx ang

/-- `ImageProcessor.rotate_image`: every depth slice is rotated by the same
angle with `reshape=True` and bilinear resampling; the output row/column
extents are fixed by rotating one slice, the depth extent is unchanged. -/
def rotate_image (V : Volume) (ang : ℝ) : Volume :=
  { ny := rotOutNy V.ny V.nx ang
    nx := rotOutNx V.ny V.nx ang
    nz := V.nz
    val := fun y x z =>
      bilinear V.ny V.nx (fun i j => V.val i j z)
        (rotSrcY V.ny V.nx ang y x) (rotSrcX V.ny V.nx ang y x) }

/-- `np.rot90(image, k=1, axes=(0, 1))` applied slice-wise:
`out[i, j, z] = in[j, nx − 1 − i, z]`. -/
def rot90 (V : Volume) : Volume :=
  { ny := V.nx
    nx := V.ny
    nz := V.nz
    val := fun i j z => V.val j (V.nx - 1 - i) z }

/- ### Local Spread Profiler (`calculate_local_spreads`) -/

/-- `MMsum[i]` (standard convention): total intensity of the (Y, Z) slab at
column i. -/
def slabSum (V : Volume) (i : ℕ) : ℝ :=
  ∑ y ∈ Finset.range V.ny, ∑ z ∈ Finset.range V.nz, V.val y i z

/-- `np.sum(MM, axis=0)`: the per-row (Y) marginal of the column-i slab. -/
def slabColY (V : Volume) (i y : ℕ) : ℝ :=
  ∑ z ∈ Finset.range V.nz, V.val y i z

/-- `np.sum(MM, axis=1)`: the per-slice (Z) marginal of the column-i slab. -/
def slabRowZ (V : Volume) (i z : ℕ) : ℝ :=
  ∑ y ∈ Finset.range V.ny, V.val y i z

/-- `MMy`: intensity-weighted mean of the 1-indexed row coordinate. -/
def slabMeanY (V : Volume) (i : ℕ) : ℝ :=
  (∑ y ∈ Finset.range V.ny, ((y : ℝ) + 1) * slabColY V i y) / slabSum V i

/-- `MMz`: intensity-weighted mean of the 1-indexed depth coordinate. -/
def slabMeanZ (V : Volume) (i : ℕ) : ℝ :=
  (∑ z ∈ Finset.range V.nz, ((z : ℝ) + 1) * slabRowZ V i z) / slabSum V i

/-- `MMyy[i]` in the positive-sum branch: weighted variance of the 1-indexed
row coordinate around `MMy`, normalized by the slab sum. -/
def slabVarY (V : Volume) (i : ℕ) : ℝ :=
  (∑ y ∈ Finset.range V.ny, (((y : ℝ) + 1) - slabMeanY V i) ^ 2 * slabColY V i y) / slabSum V i

/-- `MMzz[i]` in the positive-sum branch. -/
def slabVarZ (V : Volume) (i : ℕ) : ℝ :=
  (∑ z ∈ Finset.range V.nz, (((z : ℝ) + 1) - slabMeanZ V i) ^ 2 * slabRowZ V i z) / slabSum V i

/-- `MMyy[i]`: the local Y-variance, NaN (`none`) when the slab carries no
signal. -/
def localYY (V : Volume) (i : ℕ) : Option ℝ :=
  if 0 < slabSum V i then some (slabVarY V i) else none

/-- `MMzz[i]`: the local Z-variance, NaN (`none`) when the slab carries no
signal. -/
def localZZ (V : Volume) (i : ℕ) : Option ℝ :=
  if 0 < slabSum V i then some (slabVarZ V i) else none

/-- MATLAB-convention slab sum (iterating the first axis): row i of the volume. -/
def rowSlabSum (V : Volume) (i : ℕ) : ℝ :=
  ∑ x ∈ Finset.range V.nx, ∑ z ∈ Finset.range V.nz, V.val i x z

/-- MATLAB-convention per-column marginal at row i. -/
def rowSlabColY (V : Volume) (i x : ℕ) : ℝ :=
  ∑ z ∈ Finset.range V.nz, V.val i x z

/-- MATLAB-convention per-slice marginal at row i. -/
def rowSlabRowZ (V : Volume) (i z : ℕ) : ℝ :=
  ∑ x ∈ Finset.range V.nx, V.val i x z

/-- MATLAB-convention weighted mean of the 1-indexed column coordinate. -/
def rowSlabMeanY (V : Volume) (i : ℕ) : ℝ :=
  (∑ x ∈ Finset.range V.nx, ((x : ℝ) + 1) * rowSlabColY V i x) / rowSlabSum V i

/-- MATLAB-convention weighted mean of the 1-indexed depth coordinate. -/
def rowSlabMeanZ (V : Volume) (i : ℕ) : ℝ :=
  (∑ z ∈ Finset.range V.nz, ((z : ℝ) + 1) * rowSlabRowZ V i z) / rowSlabSum V i

/-- MATLAB-convention local variance of the column coordinate. -/
def rowSlabVarY (V : Volume) (i : ℕ) : ℝ :=
  (∑ x ∈ Finset.range V.nx, (((x : ℝ) + 1) - rowSlabMeanY V i) ^ 2 * rowSlabColY V i x)
    / rowSlabSum V i

/-- MATLAB-convention local variance of the depth coordinate. -/
def rowSlabVarZ (V : Volume) (i : ℕ) : ℝ :=
  (∑ z ∈ Finset.range V.nz, (((z : ℝ) + 1) - rowSlabMeanZ V i) ^ 2 * rowSlabRowZ V i z)
    / rowSlabSum V i

/-- MATLAB-convention `MMyy[i]`. -/
def rowLocalYY (V : Volume) (i : ℕ) : Option ℝ :=
  if 0 < rowSlabSum V i then some (rowSlabVarY V i) else none

/-- MATLAB-convention `MMzz[i]`. -/
def rowLocalZZ (V : Volume) (i : ℕ) : Option ℝ :=
  if 0 < rowSlabSum V i then some (rowSlabVarZ V i) else none

/-- `ImageProcessor.calculate_local_spreads`: returns
(`MMsum`, `MMyy`, `MMzz`, `xx00`) with NaN entries embedded as `none` and the
1-indexed coordinate array `xx00`.  The flag selects the standard convention
(iterate columns) or the MATLAB convention (iterate rows). -/
def calculate_local_spreads (V : Volume) (after90 : Bool) :
    List ℝ × List (Option ℝ) × List (Option ℝ) × List ℝ :=
  if after90 then
    ((List.range V.nx).map (slabSum V),
     (List.range V.nx).map (localYY V),
     (List.range V.nx).map (localZZ V),
     (List.range V.nx).map (fun i => (i : ℝ) + 1))
  else
    ((List.range V.ny).map (rowSlabSum V),
     (List.range V.ny).map (rowLocalYY V),
     (List.range V.ny).map (rowLocalZZ V),
     (List.range V.ny).map (fun i => (i : ℝ) + 1))

/- ### Global Spread Aggregator (`calculate_global_spreads`) -/

/-- `np.nansum(a * w)`: elementwise product summed with NaN entries skipped. -/
def nansumMul (a : List (Option ℝ)) (w : List ℝ) : ℝ :=
  (List.zipWith (fun o s => match o with | some v => v * s | none => 0) a w).sum

/-- `total_sum = np.sum(MMsum)`. -/
def profileTotal (MMsum : List ℝ) : ℝ :=
  MMsum.sum

/-- `MMx = np.sum(xx00 * MMsum) / total_sum`. -/
def profileMeanX (MMsum xx00 : List ℝ) : ℝ :=
  (List.zipWith (fun x s => x * s) xx00 MMsum).sum / profileTotal MMsum

/-- `MMxx = np.sum(MMsum * (xx00 - MMx)**2) / total_sum`. -/
def profileVarX (MMsum xx00 : List ℝ) : ℝ :=
  (List.zipWith (fun s x => s * (x - profileMeanX MMsum xx00) ^ 2) MMsum xx00).sum
    / profileTotal MMsum

/-- `spread_x_px = np.sqrt(MMxx)` (before rounding). -/
def spreadXpx (MMsum xx00 : List ℝ) : ℝ :=
  Real.sqrt (profileVarX MMsum xx00)

/-- `spread_y_px = np.sqrt(np.nansum(MMyy * MMsum) / total_sum)` (before rounding). -/
def spreadYpx (MMsum : List ℝ) (MMyy : List (Option ℝ)) : ℝ :=
  Real.sqrt (nansumMul MMyy MMsum / profileTotal MMsum)

/-- `spread_z_px = np.sqrt(np.nansum(MMzz * MMsum) / total_sum)` (before rounding). -/
def spreadZpx (MMsum : List ℝ) (MMzz : List (Option ℝ)) : ℝ :=
  Real.sqrt (nansumMul MMzz MMsum / profileTotal MMsum)

/-- The result record of `calculate_global_spreads` / `_get_empty_results`:
scalar metrics (rounded to 2 decimals at the reporting boundary) plus the
retained profile arrays. -/
structure GlobalResults where
  spread_x_pixel : ℝ
  spread_y_pixel : ℝ
  spread_z_pixel : ℝ
  spread_xy_pixel : ℝ
  spread_xyz_pixel : ℝ
  spread_x_um : ℝ
  spread_y_um : ℝ
  spread_z_um : ℝ
  spread_xy_um : ℝ
  spread_xyz_um : ℝ
  axonal_volume : ℝ
  MMsum : List ℝ
  MMyy : List (Option ℝ)
  MMzz : List (Option ℝ)

/-- `ImageProcessor._get_empty_results`: all scalar metrics 0.0 and empty
profile arrays.  (Its `fluorescence_px`, `fluorescence_um` and
`rotation_angle` entries live on the orchestrator record, where
`process_image` always overwrites them.) -/
def _get_empty_results : GlobalResults :=
  ⟨0, 0, 0, 0, 0, 0, 0, 0, 0, 0, 0, [], [], []⟩

/-- `ImageProcessor.calculate_global_spreads`: the all-zero record when the
profile total is zero, otherwise the intensity-weighted global spreads in
pixel and physical units, the combined spreads, and the axonal volume. -/
def calculate_global_spreads (P : Processor) (MMsum : List ℝ)
    (MMyy MMzz : List (Option ℝ)) (xx00 : List ℝ) : GlobalResults :=
  if profileTotal MMsum = 0 then _get_empty_results
  else
    let sx := spreadXpx MMsum xx00
    let sy := spreadYpx MMsum MMyy
    let sz := spreadZpx MMsum MMzz
    { spread_x_pixel := round2 sx
      spread_y_pixel := round2 sy
      spread_z_pixel := round2 sz
      spread_xy_pixel := round2 (sx * sy)
      spread_xyz_pixel := round2 (sx * sy * sz)
      spread_x_um := round2 (sx * P.vx)
      spread_y_um := round2 (sy * P.vy)
      spread_z_um := round2 (sz * P.vz)
      spread_xy_um := round2 (sx * P.vx * (sy * P.vy))
      spread_xyz_um := round2 (sx * P.vx * (sy * P.vy) * (sz * P.vz))
      axonal_volume := round2 (profileTotal MMsum)
      MMsum := MMsum
      MMyy := MMyy
      MMzz := MMzz }

/- ### Orchestrator (`process_image`) -/

/-- The orchestrator's heuristic layout normalization: when the first-axis
extent is smaller than the last-axis extent the volume is assumed to be
(Z, Y, X) and `transpose(1, 2, 0)` is applied. -/
def transpose120 (V : Volume) : Volume :=
  { ny := V.nx, nx := V.nz, nz := V.ny, val := fun i j k => V.val k i j }

/-- `np.any(image < 0)`: some in-range voxel is negative. -/
def hasNegative (V : Volume) : Prop :=
  ∃ y x z, y < V.ny ∧ x < V.nx ∧ z < V.nz ∧ V.val y x z < 0

/-- The `if image_3d.shape[0] < image_3d.shape[2]` layout heuristic. -/
def normalizeLayout (V : Volume) : Volume :=
  if V.ny < V.nz then transpose120 V else V

/-- The post-rotation validation of `process_image`: a rotated volume holding
any negative intensity aborts the pipeline. -/
def validateRotated (R : Volume) : Except String Volume :=
  if hasNegative R then Except.error "Rotated image contains negative values!"
  else Except.ok R

/-- The terminal record of `process_image`: the aggregated spreads plus the
fluorescence metrics, the PCA angle actually applied (rounded) and the fixed
90° standardization constant. -/
structure ProcessResults extends GlobalResults where
  fluorescence_px : ℝ
  fluorescence_um : ℝ
  rotation_angle : ℝ
  additional_rotation : ℝ

/-- `ImageProcessor.process_image`: layout normalization, negative-intensity
validation, fluorescence, PCA angle, per-slice rotation, post-rotation
validation, 90° standardization, local and global spreads. -/
def process_image (P : Processor) (image3d : Volume) (area : ℝ) :
    Except String ProcessResults :=
  if hasNegative (normalizeLayout image3d) then Except.error "Image contains negative values!"
  else if hasNegative (rotate_image (normalizeLayout image3d)
      (calculate_pca_rotation_angle (normalizeLayout image3d))) then
    Except.error "Rotated image contains negative values!"
  else
    Except.ok
      { toGlobalResults :=
          calculate_global_spreads P
            (calculate_local_spreads (rot90 (rotate_image (normalizeLayout image3d)
              (calculate_pca_rotation_angle (normalizeLayout image3d)))) true).1
            (calculate_local_spreads (rot90 (rotate_image (normalizeLayout image3d)
              (calculate_pca_rotation_angle (normalizeLayout image3d)))) true).2.1
            (calculate_local_spreads (rot90 (rotate_image (normalizeLayout image3d)
              (calculate_pca_rotation_angle (normalizeLayout image3d)))) true).2.2.1
            (calculate_local_spreads (rot90 (rotate_image (normalizeLayout image3d)
              (calculate_pca_rotation_angle (normalizeLayout image3d)))) true).2.2.2
        fluorescence_px := (calculate_fluorescence P (normalizeLayout image3d) area).1
        fluorescence_um := (calculate_fluorescence P (normalizeLayout image3d) area).2
        rotation_angle := round2 (calculate_pca_rotation_angle (normalizeLayout image3d))
        additional_rotation := 90 }

/- ### Helper evaluations of `round2` -/

theorem round2_one_third : round2 ((1 : ℝ) / 3) = 33 / 100 := by
  unfold round2
  rw [show (100 : ℝ) * (1 / 3) = 100 / 3 by ring]
  rw [roundHalfEven_eval (f := 33) (by norm_num) (by norm_num) (by norm_num)]
  norm_num

/- ### Claim C5: fluorescence round-trip -/

/-- C5 counterexample: the value returned by `calculate_fluorescence` is the
quotient rounded to 2 decimals, so for a volume of total intensity 1 and
region area 3 the returned fluorescence-per-pixel is 0.33, which is NOT
exactly the total divided by the area. -/
theorem fluorescence_not_exact_counterexample :
    (calculate_fluorescence ⟨1, 1, 1⟩ ⟨1, 1, 1, fun _ _ _ => 1⟩ 3).1 ≠
      sum3 ⟨1, 1, 1, fun _ _ _ => 1⟩ / 3 := by
  have hs : sum3 ⟨1, 1, 1, fun _ _ _ => 1⟩ = 1 := by
    simp [sum3]
  unfold calculate_fluorescence
  rw [hs]
  rw [show (1 : ℝ) / 3 = (1 : ℝ) / 3 from rfl, round2_one_third]
  norm_num

/-- C5 (amended): `calculate_fluorescence` returns the two intensity quotients
rounded to 2 decimal places; in particular it returns them exactly whenever
100 times the quotient is an integer. -/
theorem fluorescence_exact_on_hundredths (P : Processor) (V : Volume) (area : ℝ)
    (k1 k2 : ℤ) (h : 0 < area)
    (h1 : 100 * (sum3 V / area) = (k1 : ℝ))
    (h2 : 100 * (sum3 V / (area * (P.vx * P.vy))) = (k2 : ℝ)) :
    calculate_fluorescence P V area = (sum3 V / area, sum3 V / (area * (P.vx * P.vy))) := by
  unfold calculate_fluorescence
  rw [round2_of_hundredths h1, round2_of_hundredths h2]

/-- C5 witness: concrete instantiation (total 1, area 4, unit voxels) where the
returned fluorescence equals the exact quotients. -/
theorem fluorescence_exact_on_hundredths_witness :
    (0 : ℝ) < 4 ∧
      calculate_fluorescence ⟨1, 1, 1⟩ ⟨1, 1, 1, fun _ _ _ => 1⟩ 4 =
        (sum3 ⟨1, 1, 1, fun _ _ _ => 1⟩ / 4,
         sum3 ⟨1, 1, 1, fun _ _ _ => 1⟩ / (4 * ((1 : ℝ) * 1))) := by
  have hs : sum3 ⟨1, 1, 1, fun _ _ _ => 1⟩ = 1 := by
    simp [sum3]
  refine ⟨by norm_num, ?_⟩
  exact fluorescence_exact_on_hundredths ⟨1, 1, 1⟩ ⟨1, 1, 1, fun _ _ _ => 1⟩ 4 25 25
    (by norm_num) (by rw [hs]; norm_num) (by rw [hs]; norm_num)

/- ### Claim C9: the PCA angle is always within [−90°, 90°] -/

/-- C9: for every finite non-negative volume, the returned PCA rotation angle
lies in the closed interval [−90, 90] degrees (0.0 for a zero projection,
otherwise an arctangent converted to degrees). -/
theorem pca_angle_within_90 (V : Volume)
    (h : ∀ y x z, y < V.ny → x < V.nx → z < V.nz → 0 ≤ V.val y x z) :
    -90 ≤ calculate_pca_rotation_angle V ∧ calculate_pca_rotation_angle V ≤ 90 := by
  clear h
  unfold calculate_pca_rotation_angle
  split_ifs with h0
  · norm_num
  · have hπ : (0 : ℝ) < π := Real.pi_pos
    set r := ((eig2 (covXX V) (covXY V) (covYY V)).1.2.2 /
      (eig2 (covXX V) (covXY V) (covYY V)).1.2.1) with hr
    have ha : Real.arctan r < π / 2 := Real.arctan_lt_pi_div_two r
    have hb : -(π / 2) < Real.arctan r := Real.neg_pi_div_two_lt_arctan r
    constructor
    · rw [le_div_iff hπ]
      nlinarith
    · rw [div_le_iff hπ]
      nlinarith

/-- C9 witness: the angle bound instantiated at a concrete non-negative volume. -/
theorem pca_angle_within_90_witness :
    -90 ≤ calculate_pca_rotation_angle ⟨2, 2, 1, fun _ _ _ => 1⟩ ∧
      calculate_pca_rotation_angle ⟨2, 2, 1, fun _ _ _ => 1⟩ ≤ 90 :=
  pca_angle_within_90 ⟨2, 2, 1, fun _ _ _ => 1⟩ (fun _ _ _ _ _ _ => by norm_num)

/- ### Claim C10: degenerate profile returns empty retained arrays -/

/-- C10: when the intensity-sum profile totals zero, `calculate_global_spreads`
returns the `_get_empty_results` record whose retained `MMsum`, `MMyy`, `MMzz`
are length-0 arrays — not the caller's sequences — so for a nonempty input
profile the returned profile length differs from the input length. -/
theorem global_spreads_empty_profile (P : Processor) (MMsum : List ℝ)
    (MMyy MMzz : List (Option ℝ)) (xx00 : List ℝ) (h : profileTotal MMsum = 0) :
    (calculate_global_spreads P MMsum MMyy MMzz xx00).MMsum = [] ∧
    (calculate_global_spreads P MMsum MMyy MMzz xx00).MMyy = [] ∧
    (calculate_global_spreads P MMsum MMyy MMzz xx00).MMzz = [] ∧
    (0 < MMsum.length →
      (calculate_global_spreads P MMsum MMyy MMzz xx00).MMsum.length ≠ MMsum.length) := by
  unfold calculate_global_spreads
  rw [if_pos h]
  refine ⟨rfl, rfl, rfl, fun hl => ?_⟩
  simp only [_get_empty_results, List.length_nil]
  omega

/-- C10 witness: a length-1 all-zero profile yields empty retained arrays of a
different length. -/
theorem global_spreads_empty_profile_witness :
    profileTotal [(0 : ℝ)] = 0 ∧
      ((calculate_global_spreads ⟨1, 1, 1⟩ [(0 : ℝ)] [none] [none] [1]).MMsum = [] ∧
       (calculate_global_spreads ⟨1, 1, 1⟩ [(0 : ℝ)] [none] [none] [1]).MMyy = [] ∧
       (calculate_global_spreads ⟨1, 1, 1⟩ [(0 : ℝ)] [none] [none] [1]).MMzz = [] ∧
       (0 < [(0 : ℝ)].length →
         (calculate_global_spreads ⟨1, 1, 1⟩ [(0 : ℝ)] [none] [none] [1]).MMsum.length ≠
           [(0 : ℝ)].length)) :=
  ⟨by simp [profileTotal],
   global_spreads_empty_profile ⟨1, 1, 1⟩ [0] [none] [none] [1] (by simp [profileTotal])⟩

/- ### Claim C6: local spreads are the weighted transverse variances -/

/-- Claim-side formulation: intensity-weighted mean of the 1-indexed row
position over the full column-i slab (a double sum over rows and depths). -/
def pointwiseMeanY (V : Volume) (i : ℕ) : ℝ :=
  (∑ y ∈ Finset.range V.ny, ∑ z ∈ Finset.range V.nz, ((y : ℝ) + 1) * V.val y i z)
    / slabSum V i

/-- Claim-side formulation: intensity-weighted variance of the 1-indexed row
position around its weighted mean, normalized by the slab sum. -/
def pointwiseVarY (V : Volume) (i : ℕ) : ℝ :=
  (∑ y ∈ Finset.range V.ny, ∑ z ∈ Finset.range V.nz,
      V.val y i z * (((y : ℝ) + 1) - pointwiseMeanY V i) ^ 2) / slabSum V i

/-- Claim-side formulation: intensity-weighted mean of the 1-indexed depth
position over the full column-i slab. -/
def pointwiseMeanZ (V : Volume) (i : ℕ) : ℝ :=
  (∑ y ∈ Finset.range V.ny, ∑ z ∈ Finset.range V.nz, ((z : ℝ) + 1) * V.val y i z)
    / slabSum V i

/-- Claim-side formulation: intensity-weighted variance of the 1-indexed depth
position around its weighted mean, normalized by the slab sum. -/
def pointwiseVarZ (V : Volume) (i : ℕ) : ℝ :=
  (∑ y ∈ Finset.range V.ny, ∑ z ∈ Finset.range V.nz,
      V.val y i z * (((z : ℝ) + 1) - pointwiseMeanZ V i) ^ 2) / slabSum V i

theorem slabMeanY_eq_pointwise (V : Volume) (i : ℕ) :
    slabMeanY V i = pointwiseMeanY V i := by
  unfold slabMeanY pointwiseMeanY slabColY
  congr 1
  exact Finset.sum_congr rfl fun y _ => Finset.mul_sum _ _ _

theorem slabVarY_eq_pointwise (V : Volume) (i : ℕ) :
    slabVarY V i = pointwiseVarY V i := by
  unfold slabVarY pointwiseVarY
  rw [slabMeanY_eq_pointwise]
  congr 1
  refine Finset.sum_congr rfl fun y _ => ?_
  unfold slabColY
  rw [Finset.mul_sum]
  exact Finset.sum_congr rfl fun z _ => mul_comm _ _

theorem slabMeanZ_eq_pointwise (V : Volume) (i : ℕ) :
    slabMeanZ V i = pointwiseMeanZ V i := by
  unfold slabMeanZ pointwiseMeanZ slabRowZ
  congr 1
  rw [Finset.sum_comm]
  exact Finset.sum_congr rfl fun z _ => Finset.mul_sum _ _ _

theorem slabVarZ_eq_pointwise (V : Volume) (i : ℕ) :
    slabVarZ V i = pointwiseVarZ V i := by
  unfold slabVarZ pointwiseVarZ
  rw [slabMeanZ_eq_pointwise]
  congr 1
  rw [Finset.sum_comm]
  refine Finset.sum_congr rfl fun z _ => ?_
  unfold slabRowZ
  rw [Finset.mul_sum]
  exact Finset.sum_congr rfl fun y _ => mul_comm _ _

/-- C6: in the standard convention, for every column within range the profiler
reports the intensity-weighted variances of the 1-indexed row and depth
positions around their intensity-weighted means (normalized by the slab sum)
when the slab carries signal, and the NaN marker — never zero — when the slab
sum is zero. -/
theorem local_spreads_weighted_variance (V : Volume) (i : ℕ) (hi : i < V.nx) :
    (0 < slabSum V i →
      ((calculate_local_spreads V true).2.1)[i]? = some (some (pointwiseVarY V i)) ∧
      ((calculate_local_spreads V true).2.2.1)[i]? = some (some (pointwiseVarZ V i))) ∧
    (slabSum V i = 0 →
      ((calculate_local_spreads V true).2.1)[i]? = some none ∧
      ((calculate_local_spreads V true).2.2.1)[i]? = some none) := by
  have hY : (calculate_local_spreads V true).2.1 = (List.range V.nx).map (localYY V) := rfl
  have hZ : (calculate_local_spreads V true).2.2.1 = (List.range V.nx).map (localZZ V) := rfl
  rw [hY, hZ]
  simp only [List.getElem?_map, List.getElem?_range hi, Option.map_some']
  constructor
  · intro hpos
    unfold localYY localZZ
    rw [if_pos hpos, if_pos hpos, slabVarY_eq_pointwise, slabVarZ_eq_pointwise]
    exact ⟨rfl, rfl⟩
  · intro hzero
    unfold localYY localZZ
    rw [if_neg (by rw [hzero]; exact lt_irrefl 0), if_neg (by rw [hzero]; exact lt_irrefl 0)]
    exact ⟨rfl, rfl⟩

/-- C6 witness: the variance identity instantiated at a concrete 2×1×2 volume
of ones (column 0 carries signal). -/
theorem local_spreads_weighted_variance_witness :
    0 < (⟨2, 1, 2, fun _ _ _ => 1⟩ : Volume).nx ∧
      ((0 < slabSum ⟨2, 1, 2, fun _ _ _ => 1⟩ 0 →
        ((calculate_local_spreads ⟨2, 1, 2, fun _ _ _ => 1⟩ true).2.1)[0]? =
          some (some (pointwiseVarY ⟨2, 1, 2, fun _ _ _ => 1⟩ 0)) ∧
        ((calculate_local_spreads ⟨2, 1, 2, fun _ _ _ => 1⟩ true).2.2.1)[0]? =
          some (some (pointwiseVarZ ⟨2, 1, 2, fun _ _ _ => 1⟩ 0))) ∧
       (slabSum ⟨2, 1, 2, fun _ _ _ => 1⟩ 0 = 0 →
        ((calculate_local_spreads ⟨2, 1, 2, fun _ _ _ => 1⟩ true).2.1)[0]? = some none ∧
        ((calculate_local_spreads ⟨2, 1, 2, fun _ _ _ => 1⟩ true).2.2.1)[0]? = some none)) :=
  ⟨by norm_num, local_spreads_weighted_variance ⟨2, 1, 2, fun _ _ _ => 1⟩ 0 (by norm_num)⟩

/- ### Claims C1/C2: which eigenvector, and which arctangent -/

/-- A 3×1×1 all-ones volume: a vertical line, whose covariance matrix is
diagonal with the LARGER eigenvalue second. -/
def lineVolume : Volume :=
  ⟨3, 1, 1, fun _ _ _ => 1⟩

theorem lineVolume_sumProjZ : sumProjZ lineVolume = 3 := by
  unfold sumProjZ projZ
  rw [show lineVolume.ny = 3 from rfl, show lineVolume.nx = 1 from rfl,
    show lineVolume.nz = 1 from rfl]
  simp [Finset.sum_range_succ, lineVolume]

theorem lineVolume_projNorm (y x : ℕ) : projNorm lineVolume y x = 1 / 3 := by
  unfold projNorm
  rw [lineVolume_sumProjZ]
  unfold projZ
  rw [show lineVolume.nz = 1 from rfl]
  simp [lineVolume]

theorem lineVolume_centroidX : centroidX lineVolume = 0 := by
  unfold centroidX
  rw [show lineVolume.ny = 3 from rfl, show lineVolume.nx = 1 from rfl]
  simp [Finset.sum_range_succ, lineVolume_projNorm]

theorem lineVolume_centroidY : centroidY lineVolume = 1 := by
  unfold centroidY
  rw [show lineVolume.ny = 3 from rfl, show lineVolume.nx = 1 from rfl]
  simp [Finset.sum_range_succ, lineVolume_projNorm]
  norm_num

theorem lineVolume_covXX : covXX lineVolume = 0 := by
  unfold covXX
  rw [lineVolume_centroidX]
  rw [show lineVolume.ny = 3 from rfl, show lineVolume.nx = 1 from rfl]
  simp [Finset.sum_range_succ, lineVolume_projNorm]

theorem lineVolume_covXY : covXY lineVolume = 0 := by
  unfold covXY
  rw [lineVolume_centroidX, lineVolume_centroidY]
  rw [show lineVolume.ny = 3 from rfl, show lineVolume.nx = 1 from rfl]
  simp [Finset.sum_range_succ, lineVolume_projNorm]

theorem lineVolume_covYY : covYY lineVolume = 2 / 3 := by
  unfold covYY
  rw [lineVolume_centroidY]
  rw [show lineVolume.ny = 3 from rfl, show lineVolume.nx = 1 from rfl]
  simp [Finset.sum_range_succ, lineVolume_projNorm]
  norm_num

/-- C1 (code bug): on the vertical-line volume the covariance matrix is
`[[0, 0], [0, 2/3]]`; the decomposition returns the eigenpairs in diagonal
order, so the FIRST eigenvector pairs with the SMALLER eigenvalue 0 and the
code returns 0°, while the eigenvector paired with the larger eigenvalue
(the spec's principal axis) has angle 90°.  The code contradicts its own
docstring ("First eigenvector (largest eigenvalue)"). -/
theorem pca_angle_first_eigvec_divergence :
    calculate_pca_rotation_angle lineVolume = 0 ∧
      specPrincipalAngle lineVolume = 90 := by
  have hne : ¬sumProjZ lineVolume = 0 := by rw [lineVolume_sumProjZ]; norm_num
  have he : eig2 (covXX lineVolume) (covXY lineVolume) (covYY lineVolume) =
      ((0, 1, 0), (2 / 3, 0, 1)) := by
    rw [lineVolume_covXX, lineVolume_covXY, lineVolume_covYY]
    unfold eig2
    rw [if_pos rfl]
  constructor
  · unfold calculate_pca_rotation_angle
    rw [if_neg hne]
    simp only [he]
    norm_num
  · unfold specPrincipalAngle
    rw [if_neg hne]
    simp only [he]
    rw [if_pos (by norm_num : (0 : ℝ) < 2 / 3)]
    show atan2 1 0 * 180 / π = 90
    unfold atan2
    rw [if_neg (lt_irrefl 0), if_neg (lt_irrefl 0), if_pos one_pos]
    field_simp
    ring

/- ### Claim C2: single-argument arctan of a ratio, not atan2 -/

/-- A 3×2×1 volume with unit intensity at (row 0, col 0) and (row 2, col 1):
its first eigenvector has a negative reference-axis component, where the
single-argument arctangent of the ratio and the two-argument arctangent of
the raw components disagree. -/
def obliqueVolume : Volume :=
  ⟨3, 2, 1, fun y x _ => if y = 0 ∧ x = 0 then 1 else if y = 2 ∧ x = 1 then 1 else 0⟩

theorem obliqueVolume_sumProjZ : sumProjZ obliqueVolume = 2 := by
  unfold sumProjZ projZ
  rw [show obliqueVolume.ny = 3 from rfl, show obliqueVolume.nx = 2 from rfl,
    show obliqueVolume.nz = 1 from rfl]
  simp [Finset.sum_range_succ, obliqueVolume]
  norm_num

theorem obliqueVolume_projNorm (y x : ℕ) :
    projNorm obliqueVolume y x =
      (if y = 0 ∧ x = 0 then 1 else if y = 2 ∧ x = 1 then 1 else 0) / 2 := by
  unfold projNorm
  rw [obliqueVolume_sumProjZ]
  unfold projZ
  rw [show obliqueVolume.nz = 1 from rfl]
  simp [obliqueVolume]

theorem obliqueVolume_centroidX : centroidX obliqueVolume = 1 / 2 := by
  unfold centroidX
  rw [show obliqueVolume.ny = 3 from rfl, show obliqueVolume.nx = 2 from rfl]
  simp [Finset.sum_range_succ, obliqueVolume_projNorm]

theorem obliqueVolume_centroidY : centroidY obliqueVolume = 1 := by
  unfold centroidY
  rw [show obliqueVolume.ny = 3 from rfl, show obliqueVolume.nx = 2 from rfl]
  simp [Finset.sum_range_succ, obliqueVolume_projNorm]

theorem obliqueVolume_covXX : covXX obliqueVolume = 1 / 4 := by
  unfold covXX
  rw [obliqueVolume_centroidX]
  rw [show obliqueVolume.ny = 3 from rfl, show obliqueVolume.nx = 2 from rfl]
  simp [Finset.sum_range_succ, obliqueVolume_projNorm]
  norm_num

theorem obliqueVolume_covYY : covYY obliqueVolume = 1 := by
  unfold covYY
  rw [obliqueVolume_centroidY]
  rw [show obliqueVolume.ny = 3 from rfl, show obliqueVolume.nx = 2 from rfl]
  simp [Finset.sum_range_succ, obliqueVolume_projNorm]
  norm_num

theorem obliqueVolume_covXY : covXY obliqueVolume = 1 / 2 := by
  unfold covXY
  rw [obliqueVolume_centroidX, obliqueVolume_centroidY]
  rw [show obliqueVolume.ny = 3 from rfl, show obliqueVolume.nx = 2 from rfl]
  simp [Finset.sum_range_succ, obliqueVolume_projNorm]
  norm_num

theorem eig2_oblique :
    eig2 ((1 : ℝ) / 4) (1 / 2) 1 =
      ((0, -1 / Real.sqrt (5 / 4), (1 / 2) / Real.sqrt (5 / 4)),
       (1 + 1 / 4, -(1 / 2) / Real.sqrt (5 / 4), -1 / Real.sqrt (5 / 4))) := by
  unfold eig2
  rw [if_neg (by norm_num : ¬((1 : ℝ) / 2 = 0))]
  have hp : ((1 : ℝ) / 4 - 1) / 2 = -(3 / 8) := by norm_num
  have hsg : fsign (((1 : ℝ) / 4 - 1) / 2) = -1 := by
    rw [hp]
    unfold fsign
    rw [if_neg (by norm_num)]
  have hsq : Real.sqrt ((((1 : ℝ) / 4 - 1) / 2) ^ 2 + (1 / 2) ^ 2) = 5 / 8 := by
    rw [show ((((1 : ℝ) / 4 - 1) / 2) ^ 2 + (1 / 2) ^ 2) = (5 / 8) ^ 2 by norm_num]
    exact Real.sqrt_sq (by norm_num)
  simp only [hsg, hsq]
  norm_num

/-- C2 counterexample: on `obliqueVolume` the code's angle (single-argument
arctangent of the component ratio) is strictly negative while the
two-argument-arctangent variant over the same raw eigenvector components is
strictly greater than 90°, so the two computations are different functions:
the implementation does NOT use a two-argument arctangent. -/
theorem pca_angle_not_atan2_counterexample :
    calculate_pca_rotation_angle obliqueVolume ≠ pcaRotationAngleAtan2 obliqueVolume := by
  have hne : ¬sumProjZ obliqueVolume = 0 := by rw [obliqueVolume_sumProjZ]; norm_num
  have hn : (0 : ℝ) < Real.sqrt (5 / 4) := Real.sqrt_pos.mpr (by norm_num)
  have hratio : ((1 / 2) / Real.sqrt (5 / 4)) / (-1 / Real.sqrt (5 / 4)) = -(1 / 2) := by
    field_simp
    ring
  have harct : Real.arctan (-(1 / 2)) < 0 := by
    have := Real.arctan_strictMono (show (-(1 / 2) : ℝ) < 0 by norm_num)
    rwa [Real.arctan_zero] at this
  have hπ : (0 : ℝ) < π := Real.pi_pos
  have hlhs : calculate_pca_rotation_angle obliqueVolume < 0 := by
    unfold calculate_pca_rotation_angle
    rw [if_neg hne]
    simp only [obliqueVolume_covXX, obliqueVolume_covXY, obliqueVolume_covYY, eig2_oblique]
    show Real.arctan (((1 / 2) / Real.sqrt (5 / 4)) / (-1 / Real.sqrt (5 / 4))) * 180 / π < 0
    rw [hratio]
    apply div_neg_of_neg_of_pos _ hπ
    nlinarith
  have hrhs : 0 < pcaRotationAngleAtan2 obliqueVolume := by
    unfold pcaRotationAngleAtan2
    rw [if_neg hne]
    simp only [obliqueVolume_covXX, obliqueVolume_covXY, obliqueVolume_covYY, eig2_oblique]
    show 0 < atan2 ((1 / 2) / Real.sqrt (5 / 4)) (-1 / Real.sqrt (5 / 4)) * 180 / π
    unfold atan2
    rw [if_neg (by push_neg; exact le_of_lt (div_neg_of_neg_of_pos (by norm_num) hn)),
      if_pos (div_neg_of_neg_of_pos (by norm_num) hn),
      if_pos (by positivity), hratio]
    have hgt : 0 < Real.arctan (-(1 / 2)) + π := by
      have := Real.neg_pi_div_two_lt_arctan (-(1 / 2) : ℝ)
      nlinarith
    positivity
  exact fun h => absurd (h ▸ hlhs) (not_lt.mpr (le_of_lt hrhs))

theorem eig2_first_x_ne_zero (a b c : ℝ) : (eig2 a b c).1.2.1 ≠ 0 := by
  unfold eig2
  split_ifs with hb
  · norm_num
  · simp only []
    set p := (a - c) / 2 with hp
    have habs : 0 < |b| := abs_pos.mpr hb
    have hsq : |b| ≤ Real.sqrt (p ^ 2 + b ^ 2) := by
      rw [show |b| = Real.sqrt (b ^ 2) from (Real.sqrt_sq_eq_abs b).symm]
      apply Real.sqrt_le_sqrt
      nlinarith
    have hz : p + fsign p * Real.sqrt (p ^ 2 + b ^ 2) ≠ 0 := by
      unfold fsign
      split_ifs with hp0
      · have : 0 < p + 1 * Real.sqrt (p ^ 2 + b ^ 2) := by nlinarith
        exact ne_of_gt this
      · push_neg at hp0
        have : p + (-1) * Real.sqrt (p ^ 2 + b ^ 2) < 0 := by
          nlinarith [Real.sqrt_nonneg (p ^ 2 + b ^ 2)]
        exact ne_of_lt this
    have hb2 : (0 : ℝ) < b ^ 2 := by positivity
    have hn : 0 < Real.sqrt ((p + fsign p * Real.sqrt (p ^ 2 + b ^ 2)) ^ 2 + b ^ 2) :=
      Real.sqrt_pos.mpr (by positivity)
    exact div_ne_zero hz (ne_of_gt hn)

/-- C2 (amended): the code computes the single-argument arctangent of the
component ratio of the first eigenvector (not a two-argument arctangent); the
reference-axis component of that eigenvector is never zero, so no
division-domain failure can occur, and on every volume with nonzero
projection the returned angle lies strictly inside (−90°, 90°), approaching
±90° only in the limit of a vanishing reference-axis component. -/
theorem pca_angle_ratio_denominator_safe (V : Volume) (h : sumProjZ V ≠ 0) :
    (eig2 (covXX V) (covXY V) (covYY V)).1.2.1 ≠ 0 ∧
      -90 < calculate_pca_rotation_angle V ∧ calculate_pca_rotation_angle V < 90 := by
  refine ⟨eig2_first_x_ne_zero _ _ _, ?_⟩
  unfold calculate_pca_rotation_angle
  rw [if_neg h]
  have hπ : (0 : ℝ) < π := Real.pi_pos
  set r := ((eig2 (covXX V) (covXY V) (covYY V)).1.2.2 /
    (eig2 (covXX V) (covXY V) (covYY V)).1.2.1) with hr
  have ha : Real.arctan r < π / 2 := Real.arctan_lt_pi_div_two r
  have hb : -(π / 2) < Real.arctan r := Real.neg_pi_div_two_lt_arctan r
  constructor
  · rw [lt_div_iff hπ]
    nlinarith
  · rw [div_lt_iff hπ]
    nlinarith

/-- C2 witness: the amended statement instantiated at a concrete single-voxel
volume with nonzero projection. -/
theorem pca_angle_ratio_denominator_safe_witness :
    sumProjZ ⟨1, 1, 1, fun _ _ _ => 1⟩ ≠ 0 ∧
      ((eig2 (covXX ⟨1, 1, 1, fun _ _ _ => 1⟩) (covXY ⟨1, 1, 1, fun _ _ _ => 1⟩)
          (covYY ⟨1, 1, 1, fun _ _ _ => 1⟩)).1.2.1 ≠ 0 ∧
        -90 < calculate_pca_rotation_angle ⟨1, 1, 1, fun _ _ _ => 1⟩ ∧
          calculate_pca_rotation_angle ⟨1, 1, 1, fun _ _ _ => 1⟩ < 90) := by
  have hs : sumProjZ ⟨1, 1, 1, fun _ _ _ => 1⟩ ≠ 0 := by
    simp [sumProjZ, projZ]
  exact ⟨hs, pca_angle_ratio_denominator_safe ⟨1, 1, 1, fun _ _ _ => 1⟩ hs⟩

/- ### Claim C7: voxel-size scaling of physical spreads -/

theorem round2_13_over_1000 : round2 ((13 : ℝ) / 1000) = 1 / 100 := by
  unfold round2
  rw [show (100 : ℝ) * (13 / 1000) = 13 / 10 by ring]
  rw [roundHalfEven_eval (f := 1) (by norm_num) (by norm_num) (by norm_num)]
  norm_num

theorem round2_26_over_1000 : round2 ((26 : ℝ) / 1000) = 3 / 100 := by
  unfold round2
  rw [show (100 : ℝ) * (26 / 1000) = 26 / 10 by ring]
  rw [roundHalfEven_eval_up (f := 2) (by norm_num) (by norm_num) (by norm_num)]
  norm_num

theorem spreadXpx_pair : spreadXpx [(1 : ℝ), 1] [1, 2] = 1 / 2 := by
  have hvar : profileVarX [(1 : ℝ), 1] [1, 2] = 1 / 4 := by
    unfold profileVarX profileMeanX profileTotal
    simp [List.zipWith]
    norm_num
  unfold spreadXpx
  rw [hvar, show (1 / 4 : ℝ) = (1 / 2) ^ 2 by norm_num, Real.sqrt_sq (by norm_num)]

/-- C7 counterexample: the reported physical spreads are rounded to 2 decimals,
so they do not scale exactly.  For the profile `MMsum = [1, 1]`,
`xx00 = [1, 2]` the pixel X-spread is 0.5; with voxel size 0.026 µm the
reported X-spread is round2(0.013) = 0.01, but with the voxel size doubled to
0.052 µm it is round2(0.026) = 0.03 ≠ 2 × 0.01. -/
theorem voxel_scaling_not_exact_counterexample :
    (calculate_global_spreads ⟨52 / 1000, 1, 1⟩ [1, 1] [some 0, some 0] [some 0, some 0]
        [1, 2]).spread_x_um ≠
      2 * (calculate_global_spreads ⟨26 / 1000, 1, 1⟩ [1, 1] [some 0, some 0] [some 0, some 0]
        [1, 2]).spread_x_um := by
  have ht : profileTotal [(1 : ℝ), 1] ≠ 0 := by
    unfold profileTotal
    norm_num
  unfold calculate_global_spreads
  simp only [if_neg ht, spreadXpx_pair]
  rw [show (1 / 2 : ℝ) * (52 / 1000) = 26 / 1000 by ring,
    show (1 / 2 : ℝ) * (26 / 1000) = 13 / 1000 by ring,
    round2_26_over_1000, round2_13_over_1000]
  norm_num

/-- C7 (amended): before the 2-decimal reporting rounding, scaling one axis's
voxel size by k scales exactly that axis's physical spread by k: the reported
physical spread under the scaled calibration equals `round2` of k times the
unrounded physical spread, and all five pixel-unit spread fields are
unchanged by the rescaling. -/
theorem voxel_scaling_physical_spreads (P : Processor) (k : ℝ) (MMsum : List ℝ)
    (MMyy MMzz : List (Option ℝ)) (xx00 : List ℝ) (hk : 0 < k)
    (ht : profileTotal MMsum ≠ 0) :
    (calculate_global_spreads ⟨k * P.vx, P.vy, P.vz⟩ MMsum MMyy MMzz xx00).spread_x_um =
        round2 (k * (spreadXpx MMsum xx00 * P.vx)) ∧
    (calculate_global_spreads ⟨P.vx, k * P.vy, P.vz⟩ MMsum MMyy MMzz xx00).spread_y_um =
        round2 (k * (spreadYpx MMsum MMyy * P.vy)) ∧
    (calculate_global_spreads ⟨P.vx, P.vy, k * P.vz⟩ MMsum MMyy MMzz xx00).spread_z_um =
        round2 (k * (spreadZpx MMsum MMzz * P.vz)) ∧
    (calculate_global_spreads ⟨k * P.vx, P.vy, P.vz⟩ MMsum MMyy MMzz xx00).spread_x_pixel =
        (calculate_global_spreads P MMsum MMyy MMzz xx00).spread_x_pixel ∧
    (calculate_global_spreads ⟨k * P.vx, P.vy, P.vz⟩ MMsum MMyy MMzz xx00).spread_y_pixel =
        (calculate_global_spreads P MMsum MMyy MMzz xx00).spread_y_pixel ∧
    (calculate_global_spreads ⟨k * P.vx, P.vy, P.vz⟩ MMsum MMyy MMzz xx00).spread_z_pixel =
        (calculate_global_spreads P MMsum MMyy MMzz xx00).spread_z_pixel ∧
    (calculate_global_spreads ⟨k * P.vx, P.vy, P.vz⟩ MMsum MMyy MMzz xx00).spread_xy_pixel =
        (calculate_global_spreads P MMsum MMyy MMzz xx00).spread_xy_pixel ∧
    (calculate_global_spreads ⟨k * P.vx, P.vy, P.vz⟩ MMsum MMyy MMzz xx00).spread_xyz_pixel =
        (calculate_global_spreads P MMsum MMyy MMzz xx00).spread_xyz_pixel := by
  clear hk
  unfold calculate_global_spreads
  simp only [if_neg ht]
  refine ⟨?_, ?_, ?_, ?_, ?_, ?_, ?_, ?_⟩
  · show round2 (spreadXpx MMsum xx00 * (k * P.vx)) = round2 (k * (spreadXpx MMsum xx00 * P.vx))
    exact congrArg round2 (by ring)
  · show round2 (spreadYpx MMsum MMyy * (k * P.vy)) = round2 (k * (spreadYpx MMsum MMyy * P.vy))
    exact congrArg round2 (by ring)
  · show round2 (spreadZpx MMsum MMzz * (k * P.vz)) = round2 (k * (spreadZpx MMsum MMzz * P.vz))
    exact congrArg round2 (by ring)
  · trivial
  · trivial
  · trivial
  · trivial
  · trivial

/-- C7 witness: the amended statement instantiated at the two-position profile
with unit calibration and scale factor 2. -/
theorem voxel_scaling_physical_spreads_witness :
    (0 : ℝ) < 2 ∧ profileTotal [(1 : ℝ), 1] ≠ 0 ∧
      (calculate_global_spreads ⟨2 * (1 : ℝ), 1, 1⟩ [1, 1] [some 0, some 0] [some 0, some 0]
          [1, 2]).spread_x_um = round2 (2 * (spreadXpx [(1 : ℝ), 1] [1, 2] * 1)) := by
  have ht : profileTotal [(1 : ℝ), 1] ≠ 0 := by
    unfold profileTotal
    norm_num
  exact ⟨by norm_num, ht,
    (voxel_scaling_physical_spreads ⟨1, 1, 1⟩ 2 [1, 1] [some 0, some 0] [some 0, some 0] [1, 2]
      (by norm_num) ht).1⟩

/- ### Claim C4: negative intensities abort the pipeline -/

theorem hasNegative_transpose120 (V : Volume) :
    hasNegative (transpose120 V) ↔ hasNegative V := by
  constructor
  · rintro ⟨i, j, k, hi, hj, hk, hlt⟩
    exact ⟨k, i, j, hk, hi, hj, hlt⟩
  · rintro ⟨y, x, z, hy, hx, hz, hlt⟩
    exact ⟨x, z, y, hx, hz, hy, hlt⟩

theorem hasNegative_normalizeLayout (V : Volume) :
    hasNegative (normalizeLayout V) ↔ hasNegative V := by
  unfold normalizeLayout
  split_ifs
  · exact hasNegative_transpose120 V
  · exact Iff.rfl

/-- C4: a volume containing any negative intensity makes `process_image`
return the descriptive error before producing any result, and the
post-rotation validation stage likewise rejects any rotated volume containing
a negative intensity; no clamping is performed on either path. -/
theorem process_image_rejects_negative (P : Processor) (V : Volume) (area : ℝ) (R : Volume) :
    (hasNegative V → process_image P V area = Except.error "Image contains negative values!") ∧
    (hasNegative R →
      validateRotated R = Except.error "Rotated image contains negative values!") := by
  constructor
  · intro hneg
    unfold process_image
    rw [if_pos ((hasNegative_normalizeLayout V).mpr hneg)]
  · intro hneg
    unfold validateRotated
    rw [if_pos hneg]

/-- C4 witness: a concrete single-voxel volume with intensity −1 is rejected
both by the input check and by the post-rotation check. -/
theorem process_image_rejects_negative_witness :
    hasNegative ⟨1, 1, 1, fun _ _ _ => -1⟩ ∧
      process_image ⟨1, 1, 1⟩ ⟨1, 1, 1, fun _ _ _ => -1⟩ 1 =
        Except.error "Image contains negative values!" ∧
      validateRotated ⟨1, 1, 1, fun _ _ _ => -1⟩ =
        Except.error "Rotated image contains negative values!" := by
  have hn : hasNegative ⟨1, 1, 1, fun _ _ _ => -1⟩ :=
    ⟨0, 0, 0, by norm_num, by norm_num, by norm_num, by norm_num⟩
  exact ⟨hn,
    (process_image_rejects_negative ⟨1, 1, 1⟩ ⟨1, 1, 1, fun _ _ _ => -1⟩ 1
      ⟨1, 1, 1, fun _ _ _ => -1⟩).1 hn,
    (process_image_rejects_negative ⟨1, 1, 1⟩ ⟨1, 1, 1, fun _ _ _ => -1⟩ 1
      ⟨1, 1, 1, fun _ _ _ => -1⟩).2 hn⟩

/- ### Claim C3: zero-intensity volumes yield the all-zero record -/

/-- Every in-range voxel is zero. -/
def AllZero (W : Volume) : Prop :=
  ∀ y x z, y < W.ny → x < W.nx → z < W.nz → W.val y x z = 0

theorem allZero_of_nonneg_sum3_zero (V : Volume)
    (hnn : ∀ y x z, y < V.ny → x < V.nx → z < V.nz → 0 ≤ V.val y x z)
    (h0 : sum3 V = 0) : AllZero V := by
  intro y x z hy hx hz
  have hynn : ∀ y ∈ Finset.range V.ny,
      0 ≤ ∑ x ∈ Finset.range V.nx, ∑ z ∈ Finset.range V.nz, V.val y x z := by
    intro y hy
    refine Finset.sum_nonneg fun x hx => Finset.sum_nonneg fun z hz => ?_
    exact hnn y x z (Finset.mem_range.mp hy) (Finset.mem_range.mp hx) (Finset.mem_range.mp hz)
  have h1 := (Finset.sum_eq_zero_iff_of_nonneg hynn).mp h0 y (Finset.mem_range.mpr hy)
  have hxnn : ∀ x ∈ Finset.range V.nx, 0 ≤ ∑ z ∈ Finset.range V.nz, V.val y x z := by
    intro x hx
    refine Finset.sum_nonneg fun z hz => ?_
    exact hnn y x z hy (Finset.mem_range.mp hx) (Finset.mem_range.mp hz)
  have h2 := (Finset.sum_eq_zero_iff_of_nonneg hxnn).mp h1 x (Finset.mem_range.mpr hx)
  have hznn : ∀ z ∈ Finset.range V.nz, 0 ≤ V.val y x z := by
    intro z hz
    exact hnn y x z hy hx (Finset.mem_range.mp hz)
  exact (Finset.sum_eq_zero_iff_of_nonneg hznn).mp h2 z (Finset.mem_range.mpr hz)

theorem allZero_normalizeLayout (V : Volume) (h : AllZero V) :
    AllZero (normalizeLayout V) := by
  unfold normalizeLayout
  split_ifs
  · intro i j k hi hj hk
    exact h k i j hk hi hj
  · exact h

theorem sum3_of_allZero (W : Volume) (h : AllZero W) : sum3 W = 0 := by
  unfold sum3
  refine Finset.sum_eq_zero fun y hy => Finset.sum_eq_zero fun x hx =>
    Finset.sum_eq_zero fun z hz => ?_
  exact h y x z (Finset.mem_range.mp hy) (Finset.mem_range.mp hx) (Finset.mem_range.mp hz)

theorem sumProjZ_of_allZero (W : Volume) (h : AllZero W) : sumProjZ W = 0 := by
  unfold sumProjZ projZ
  refine Finset.sum_eq_zero fun y hy => Finset.sum_eq_zero fun x hx =>
    Finset.sum_eq_zero fun z hz => ?_
  exact h y x z (Finset.mem_range.mp hy) (Finset.mem_range.mp hx) (Finset.mem_range.mp hz)

theorem not_hasNegative_of_allZero (W : Volume) (h : AllZero W) : ¬hasNegative W := by
  rintro ⟨y, x, z, hy, hx, hz, hlt⟩
  rw [h y x z hy hx hz] at hlt
  exact lt_irrefl 0 hlt

/-- Bilinearly resampling an all-zero volume gives zero at every coordinate of
every in-range slice. -/
theorem rotate_image_val_zero (W : Volume) (a : ℝ) (h : AllZero W) :
    ∀ y x z, z < W.nz → (rotate_image W a).val y x z = 0 := by
  intro y x z hz
  show bilinear W.ny W.nx (fun i j => W.val i j z) _ _ = 0
  unfold bilinear
  have hp : ∀ i j : ℤ, pad2 W.ny W.nx (fun i j => W.val i j z) i j = 0 := by
    intro i j
    unfold pad2
    split_ifs with hb
    · obtain ⟨h1, h2, h3, h4⟩ := hb
      exact h i.toNat j.toNat z (by omega) (by omega) hz
    · rfl
  simp [hp]

theorem rotate_image_allZero (W : Volume) (a : ℝ) (h : AllZero W) :
    AllZero (rotate_image W a) :=
  fun y x z _ _ hz => rotate_image_val_zero W a h y x z hz

theorem rot90_allZero (W : Volume) (h : ∀ y x z, z < W.nz → W.val y x z = 0) :
    AllZero (rot90 W) :=
  fun i j z _ _ hz => h j (W.nx - 1 - i) z hz

theorem localSpreads_total_zero (W : Volume) (h : AllZero W) :
    profileTotal (calculate_local_spreads W true).1 = 0 := by
  have h1 : (calculate_local_spreads W true).1 = (List.range W.nx).map (slabSum W) := rfl
  rw [h1]
  unfold profileTotal
  apply List.sum_eq_zero
  intro s hs
  rw [List.mem_map] at hs
  obtain ⟨i, hi, rfl⟩ := hs
  rw [List.mem_range] at hi
  unfold slabSum
  refine Finset.sum_eq_zero fun y hy => Finset.sum_eq_zero fun z hz => ?_
  exact h y i z (Finset.mem_range.mp hy) hi (Finset.mem_range.mp hz)

theorem validateRotated_ok {R : Volume} (h : ¬hasNegative R) :
    validateRotated R = Except.ok R := by
  unfold validateRotated
  rw [if_neg h]

/-- C3: for every non-negative volume of zero total intensity and positive
region area, `process_image` returns (no error) the record in which every
spread metric, the axonal volume and the fluorescence metrics are 0.0 and the
retained profile arrays are empty; in particular the PCA angle of a zero
projection is 0.0 and `calculate_global_spreads` returns the all-zero record
whenever the profile total is 0. -/
theorem process_image_zero_volume (P : Processor) (V : Volume) (area : ℝ)
    (hnn : ∀ y x z, y < V.ny → x < V.nx → z < V.nz → 0 ≤ V.val y x z)
    (h0 : sum3 V = 0) (ha : 0 < area) :
    process_image P V area =
      Except.ok ⟨⟨0, 0, 0, 0, 0, 0, 0, 0, 0, 0, 0, [], [], []⟩, 0, 0, 0, 90⟩ ∧
    (∀ W : Volume, sumProjZ W = 0 → calculate_pca_rotation_angle W = 0) ∧
    (∀ (ms : List ℝ) (myy mzz : List (Option ℝ)) (xs : List ℝ), profileTotal ms = 0 →
      calculate_global_spreads P ms myy mzz xs = _get_empty_results) := by
  refine ⟨?_, ?_, ?_⟩
  · have hzi : AllZero (normalizeLayout V) :=
      allZero_normalizeLayout V (allZero_of_nonneg_sum3_zero V hnn h0)
    have hnoneg : ¬hasNegative (normalizeLayout V) := not_hasNegative_of_allZero _ hzi
    have hrotz : AllZero (rotate_image (normalizeLayout V)
        (calculate_pca_rotation_angle (normalizeLayout V))) :=
      rotate_image_allZero _ _ hzi
    have hrotneg : ¬hasNegative (rotate_image (normalizeLayout V)
        (calculate_pca_rotation_angle (normalizeLayout V))) :=
      not_hasNegative_of_allZero _ hrotz
    have h90 : AllZero (rot90 (rotate_image (normalizeLayout V)
        (calculate_pca_rotation_angle (normalizeLayout V)))) :=
      rot90_allZero _ fun y x z hz => rotate_image_val_zero _ _ hzi y x z hz
    have htot : profileTotal (calculate_local_spreads (rot90 (rotate_image (normalizeLayout V)
        (calculate_pca_rotation_angle (normalizeLayout V)))) true).1 = 0 :=
      localSpreads_total_zero _ h90
    have hsumz : sum3 (normalizeLayout V) = 0 := sum3_of_allZero _ hzi
    have hang : calculate_pca_rotation_angle (normalizeLayout V) = 0 := by
      unfold calculate_pca_rotation_angle
      rw [if_pos (sumProjZ_of_allZero _ hzi)]
    unfold process_image
    rw [if_neg hnoneg, if_neg hrotneg]
    refine congrArg Except.ok ?_
    have hg : calculate_global_spreads P
        (calculate_local_spreads (rot90 (rotate_image (normalizeLayout V)
          (calculate_pca_rotation_angle (normalizeLayout V)))) true).1
        (calculate_local_spreads (rot90 (rotate_image (normalizeLayout V)
          (calculate_pca_rotation_angle (normalizeLayout V)))) true).2.1
        (calculate_local_spreads (rot90 (rotate_image (normalizeLayout V)
          (calculate_pca_rotation_angle (normalizeLayout V)))) true).2.2.1
        (calculate_local_spreads (rot90 (rotate_image (normalizeLayout V)
          (calculate_pca_rotation_angle (normalizeLayout V)))) true).2.2.2 =
        _get_empty_results := by
      unfold calculate_global_spreads
      rw [if_pos htot]
    have hfl : calculate_fluorescence P (normalizeLayout V) area = (0, 0) := by
      unfold calculate_fluorescence
      rw [hsumz]
      rw [zero_div, zero_div, round2_zero]
    have hfl1 : (calculate_fluorescence P (normalizeLayout V) area).1 = 0 := by rw [hfl]
    have hfl2 : (calculate_fluorescence P (normalizeLayout V) area).2 = 0 := by rw [hfl]
    rw [hg, hfl1, hfl2, hang, round2_zero]
    rfl
  · intro W hW
    unfold calculate_pca_rotation_angle
    rw [if_pos hW]
  · intro ms myy mzz xs hms
    unfold calculate_global_spreads
    rw [if_pos hms]

/-- C3 witness: a concrete all-zero 1×1×1 volume with area 1 produces the
all-zero record. -/
theorem process_image_zero_volume_witness :
    (∀ y x z : ℕ, y < 1 → x < 1 → z < 1 →
      (0 : ℝ) ≤ (⟨1, 1, 1, fun _ _ _ => 0⟩ : Volume).val y x z) ∧
    sum3 ⟨1, 1, 1, fun _ _ _ => 0⟩ = 0 ∧ (0 : ℝ) < 1 ∧
    process_image ⟨1, 1, 1⟩ ⟨1, 1, 1, fun _ _ _ => 0⟩ 1 =
      Except.ok ⟨⟨0, 0, 0, 0, 0, 0, 0, 0, 0, 0, 0, [], [], []⟩, 0, 0, 0, 90⟩ := by
  have hnn : ∀ y x z : ℕ, y < 1 → x < 1 → z < 1 →
      (0 : ℝ) ≤ (⟨1, 1, 1, fun _ _ _ => 0⟩ : Volume).val y x z := by
    intro y x z _ _ _
    norm_num
  have hs : sum3 (⟨1, 1, 1, fun _ _ _ => 0⟩ : Volume) = 0 := by
    simp [sum3]
  exact ⟨hnn, hs, by norm_num,
    (process_image_zero_volume ⟨1, 1, 1⟩ ⟨1, 1, 1, fun _ _ _ => 0⟩ 1 hnn hs (by norm_num)).1⟩

/- ### Claim C8: intensity scaling — infrastructure -/

/-- The volume with every voxel intensity multiplied by k (geometry fixed). -/
def scaleVol (k : ℝ) (V : Volume) : Volume :=
  { V with val := fun y x z => k * V.val y x z }

theorem Volume.ext' {A B : Volume} (hny : A.ny = B.ny) (hnx : A.nx = B.nx)
    (hnz : A.nz = B.nz) (hval : A.val = B.val) : A = B := by
  cases A
  cases B
  simp_all

theorem sum3_scale (k : ℝ) (V : Volume) : sum3 (scaleVol k V) = k * sum3 V := by
  unfold sum3 scaleVol
  simp [Finset.mul_sum]

theorem projZ_scale (k : ℝ) (V : Volume) (y x : ℕ) :
    projZ (scaleVol k V) y x = k * projZ V y x := by
  unfold projZ scaleVol
  rw [Finset.mul_sum]

theorem sumProjZ_scale (k : ℝ) (V : Volume) : sumProjZ (scaleVol k V) = k * sumProjZ V := by
  unfold sumProjZ
  simp only [projZ_scale]
  show (∑ y ∈ Finset.range V.ny, ∑ x ∈ Finset.range V.nx, k * projZ V y x) = _
  simp [Finset.mul_sum]

theorem projNorm_scale {k : ℝ} (hk : k ≠ 0) (V : Volume) (y x : ℕ) :
    projNorm (scaleVol k V) y x = projNorm V y x := by
  unfold projNorm
  rw [projZ_scale, sumProjZ_scale, mul_div_mul_left _ _ hk]

theorem centroidX_scale {k : ℝ} (hk : k ≠ 0) (V : Volume) :
    centroidX (scaleVol k V) = centroidX V := by
  unfold centroidX
  simp only [projNorm_scale hk]
  rfl

theorem centroidY_scale {k : ℝ} (hk : k ≠ 0) (V : Volume) :
    centroidY (scaleVol k V) = centroidY V := by
  unfold centroidY
  simp only [projNorm_scale hk]
  rfl

theorem covXX_scale {k : ℝ} (hk : k ≠ 0) (V : Volume) :
    covXX (scaleVol k V) = covXX V := by
  unfold covXX
  simp only [projNorm_scale hk, centroidX_scale hk]
  rfl

theorem covYY_scale {k : ℝ} (hk : k ≠ 0) (V : Volume) :
    covYY (scaleVol k V) = covYY V := by
  unfold covYY
  simp only [projNorm_scale hk, centroidY_scale hk]
  rfl

theorem covXY_scale {k : ℝ} (hk : k ≠ 0) (V : Volume) :
    covXY (scaleVol k V) = covXY V := by
  unfold covXY
  simp only [projNorm_scale hk, centroidX_scale hk, centroidY_scale hk]
  rfl

theorem pca_angle_scale {k : ℝ} (hk : k ≠ 0) (V : Volume) :
    calculate_pca_rotation_angle (scaleVol k V) = calculate_pca_rotation_angle V := by
  unfold calculate_pca_rotation_angle
  by_cases h : sumProjZ V = 0
  · rw [if_pos h, if_pos (by rw [sumProjZ_scale, h, mul_zero])]
  · rw [if_neg h, if_neg (by rw [sumProjZ_scale]; exact mul_ne_zero hk h)]
    rw [covXX_scale hk, covXY_scale hk, covYY_scale hk]

theorem pad2_scale (ny nx : ℕ) (k : ℝ) (f : ℕ → ℕ → ℝ) (i j : ℤ) :
    pad2 ny nx (fun a b => k * f a b) i j = k * pad2 ny nx f i j := by
  unfold pad2
  split_ifs
  · rfl
  · rw [mul_zero]

theorem bilinear_scale (ny nx : ℕ) (k : ℝ) (f : ℕ → ℕ → ℝ) (y x : ℝ) :
    bilinear ny nx (fun a b => k * f a b) y x = k * bilinear ny nx f y x := by
  unfold bilinear
  simp only [pad2_scale]
  ring

theorem rotate_image_scale (k : ℝ) (V : Volume) (a : ℝ) :
    rotate_image (scaleVol k V) a = scaleVol k (rotate_image V a) := by
  refine Volume.ext' rfl rfl rfl ?_
  funext y x z
  show bilinear V.ny V.nx (fun i j => k * V.val i j z)
      (rotSrcY V.ny V.nx a y x) (rotSrcX V.ny V.nx a y x) =
    k * bilinear V.ny V.nx (fun i j => V.val i j z)
      (rotSrcY V.ny V.nx a y x) (rotSrcX V.ny V.nx a y x)
  exact bilinear_scale V.ny V.nx k _ _ _

theorem rot90_scale (k : ℝ) (V : Volume) : rot90 (scaleVol k V) = scaleVol k (rot90 V) := rfl

theorem transpose120_scale (k : ℝ) (V : Volume) :
    transpose120 (scaleVol k V) = scaleVol k (transpose120 V) := rfl

theorem normalizeLayout_scale (k : ℝ) (V : Volume) :
    normalizeLayout (scaleVol k V) = scaleVol k (normalizeLayout V) := by
  show (if V.ny < V.nz then transpose120 (scaleVol k V) else scaleVol k V) =
    scaleVol k (if V.ny < V.nz then transpose120 V else V)
  split_ifs with h
  · exact transpose120_scale k V
  · rfl

theorem hasNegative_scale {k : ℝ} (hk : 0 < k) (V : Volume) :
    hasNegative (scaleVol k V) ↔ hasNegative V := by
  constructor
  · rintro ⟨y, x, z, hy, hx, hz, hlt⟩
    refine ⟨y, x, z, hy, hx, hz, ?_⟩
    by_contra hge
    push_neg at hge
    have : 0 ≤ k * V.val y x z := mul_nonneg (le_of_lt hk) hge
    exact absurd hlt (not_lt.mpr this)
  · rintro ⟨y, x, z, hy, hx, hz, hlt⟩
    exact ⟨y, x, z, hy, hx, hz, mul_neg_of_pos_of_neg hk hlt⟩

theorem slabSum_scale (k : ℝ) (V : Volume) (i : ℕ) :
    slabSum (scaleVol k V) i = k * slabSum V i := by
  unfold slabSum scaleVol
  simp [Finset.mul_sum]

theorem slabColY_scale (k : ℝ) (V : Volume) (i y : ℕ) :
    slabColY (scaleVol k V) i y = k * slabColY V i y := by
  unfold slabColY scaleVol
  rw [Finset.mul_sum]

theorem slabRowZ_scale (k : ℝ) (V : Volume) (i z : ℕ) :
    slabRowZ (scaleVol k V) i z = k * slabRowZ V i z := by
  unfold slabRowZ scaleVol
  rw [Finset.mul_sum]

theorem slabMeanY_scale {k : ℝ} (hk : k ≠ 0) (V : Volume) (i : ℕ) :
    slabMeanY (scaleVol k V) i = slabMeanY V i := by
  unfold slabMeanY
  rw [slabSum_scale]
  rw [show (∑ y ∈ Finset.range (scaleVol k V).ny, ((y : ℝ) + 1) * slabColY (scaleVol k V) i y) =
      k * ∑ y ∈ Finset.range V.ny, ((y : ℝ) + 1) * slabColY V i y by
    rw [Finset.mul_sum]
    refine Finset.sum_congr rfl fun y _ => ?_
    rw [slabColY_scale]
    ring]
  exact mul_div_mul_left _ _ hk

theorem slabMeanZ_scale {k : ℝ} (hk : k ≠ 0) (V : Volume) (i : ℕ) :
    slabMeanZ (scaleVol k V) i = slabMeanZ V i := by
  unfold slabMeanZ
  rw [slabSum_scale]
  rw [show (∑ z ∈ Finset.range (scaleVol k V).nz, ((z : ℝ) + 1) * slabRowZ (scaleVol k V) i z) =
      k * ∑ z ∈ Finset.range V.nz, ((z : ℝ) + 1) * slabRowZ V i z by
    rw [Finset.mul_sum]
    refine Finset.sum_congr rfl fun z _ => ?_
    rw [slabRowZ_scale]
    ring]
  exact mul_div_mul_left _ _ hk

theorem slabVarY_scale {k : ℝ} (hk : k ≠ 0) (V : Volume) (i : ℕ) :
    slabVarY (scaleVol k V) i = slabVarY V i := by
  unfold slabVarY
  rw [slabSum_scale, slabMeanY_scale hk]
  rw [show (∑ y ∈ Finset.range (scaleVol k V).ny,
        (((y : ℝ) + 1) - slabMeanY V i) ^ 2 * slabColY (scaleVol k V) i y) =
      k * ∑ y ∈ Finset.range V.ny, (((y : ℝ) + 1) - slabMeanY V i) ^ 2 * slabColY V i y by
    rw [Finset.mul_sum]
    refine Finset.sum_congr rfl fun y _ => ?_
    rw [slabColY_scale]
    ring]
  exact mul_div_mul_left _ _ hk

theorem slabVarZ_scale {k : ℝ} (hk : k ≠ 0) (V : Volume) (i : ℕ) :
    slabVarZ (scaleVol k V) i = slabVarZ V i := by
  unfold slabVarZ
  rw [slabSum_scale, slabMeanZ_scale hk]
  rw [show (∑ z ∈ Finset.range (scaleVol k V).nz,
        (((z : ℝ) + 1) - slabMeanZ V i) ^ 2 * slabRowZ (scaleVol k V) i z) =
      k * ∑ z ∈ Finset.range V.nz, (((z : ℝ) + 1) - slabMeanZ V i) ^ 2 * slabRowZ V i z by
    rw [Finset.mul_sum]
    refine Finset.sum_congr rfl fun z _ => ?_
    rw [slabRowZ_scale]
    ring]
  exact mul_div_mul_left _ _ hk

theorem localYY_scale {k : ℝ} (hk : 0 < k) (V : Volume) (i : ℕ) :
    localYY (scaleVol k V) i = localYY V i := by
  unfold localYY
  rw [slabSum_scale]
  by_cases h : 0 < slabSum V i
  · rw [if_pos h, if_pos (mul_pos hk h), slabVarY_scale (ne_of_gt hk)]
  · rw [if_neg h, if_neg (fun hc => h (by nlinarith))]

theorem localZZ_scale {k : ℝ} (hk : 0 < k) (V : Volume) (i : ℕ) :
    localZZ (scaleVol k V) i = localZZ V i := by
  unfold localZZ
  rw [slabSum_scale]
  by_cases h : 0 < slabSum V i
  · rw [if_pos h, if_pos (mul_pos hk h), slabVarZ_scale (ne_of_gt hk)]
  · rw [if_neg h, if_neg (fun hc => h (by nlinarith))]

theorem local_spreads_scale_1 {k : ℝ} (V : Volume) :
    (calculate_local_spreads (scaleVol k V) true).1 =
      (calculate_local_spreads V true).1.map (fun s => k * s) := by
  show (List.range V.nx).map (slabSum (scaleVol k V)) =
    ((List.range V.nx).map (slabSum V)).map (fun s => k * s)
  rw [List.map_map]
  refine List.map_congr_left fun i _ => ?_
  exact slabSum_scale k V i

theorem local_spreads_scale_2 {k : ℝ} (hk : 0 < k) (V : Volume) :
    (calculate_local_spreads (scaleVol k V) true).2.1 =
      (calculate_local_spreads V true).2.1 := by
  show (List.range V.nx).map (localYY (scaleVol k V)) = (List.range V.nx).map (localYY V)
  refine List.map_congr_left fun i _ => localYY_scale hk V i

theorem local_spreads_scale_3 {k : ℝ} (hk : 0 < k) (V : Volume) :
    (calculate_local_spreads (scaleVol k V) true).2.2.1 =
      (calculate_local_spreads V true).2.2.1 := by
  show (List.range V.nx).map (localZZ (scaleVol k V)) = (List.range V.nx).map (localZZ V)
  refine List.map_congr_left fun i _ => localZZ_scale hk V i

theorem local_spreads_scale_4 {k : ℝ} (V : Volume) :
    (calculate_local_spreads (scaleVol k V) true).2.2.2 =
      (calculate_local_spreads V true).2.2.2 := rfl

theorem list_sum_map_mul (k : ℝ) : ∀ ms : List ℝ, (ms.map (fun s => k * s)).sum = k * ms.sum
  | [] => by simp
  | a :: t => by
    simp only [List.map_cons, List.sum_cons, list_sum_map_mul k t]
    ring

theorem sum_zipWith_mul_left {α β : Type} (k : ℝ) (g : α → β → ℝ) :
    ∀ (a : List α) (b : List β),
      (List.zipWith (fun x y => k * g x y) a b).sum = k * (List.zipWith g a b).sum
  | [], _ => by simp
  | _ :: _, [] => by simp
  | x :: xs, y :: ys => by
    simp only [List.zipWith_cons_cons, List.sum_cons, sum_zipWith_mul_left k g xs ys]
    ring

theorem profileTotal_map_mul (k : ℝ) (ms : List ℝ) :
    profileTotal (ms.map (fun s => k * s)) = k * profileTotal ms :=
  list_sum_map_mul k ms

theorem profileMeanX_map_mul {k : ℝ} (hk : k ≠ 0) (ms xs : List ℝ) :
    profileMeanX (ms.map (fun s => k * s)) xs = profileMeanX ms xs := by
  unfold profileMeanX
  rw [profileTotal_map_mul, List.zipWith_map_right]
  rw [show (fun (x : ℝ) (s : ℝ) => x * (k * s)) = (fun x s => k * (x * s)) from by
    funext x s
    ring]
  rw [sum_zipWith_mul_left]
  exact mul_div_mul_left _ _ hk

theorem profileVarX_map_mul {k : ℝ} (hk : k ≠ 0) (ms xs : List ℝ) :
    profileVarX (ms.map (fun s => k * s)) xs = profileVarX ms xs := by
  unfold profileVarX
  rw [profileMeanX_map_mul hk, profileTotal_map_mul, List.zipWith_map_left]
  rw [show (fun (s : ℝ) (x : ℝ) => k * s * (x - profileMeanX ms xs) ^ 2) =
      (fun s x => k * (s * (x - profileMeanX ms xs) ^ 2)) from by
    funext s x
    ring]
  rw [sum_zipWith_mul_left]
  exact mul_div_mul_left _ _ hk

theorem nansumMul_map_mul (k : ℝ) (a : List (Option ℝ)) (w : List ℝ) :
    nansumMul a (w.map (fun s => k * s)) = k * nansumMul a w := by
  unfold nansumMul
  rw [List.zipWith_map_right]
  rw [show (fun (o : Option ℝ) (s : ℝ) =>
        match o with | some v => v * (k * s) | none => 0) =
      (fun (o : Option ℝ) (s : ℝ) =>
        k * match o with | some v => v * s | none => 0) from by
    funext o s
    cases o with
    | none => simp
    | some v =>
      show v * (k * s) = k * (v * s)
      ring]
  rw [sum_zipWith_mul_left]

theorem spreadXpx_map_mul {k : ℝ} (hk : k ≠ 0) (ms xs : List ℝ) :
    spreadXpx (ms.map (fun s => k * s)) xs = spreadXpx ms xs := by
  unfold spreadXpx
  rw [profileVarX_map_mul hk]

theorem spreadYpx_map_mul {k : ℝ} (hk : k ≠ 0) (ms : List ℝ) (myy : List (Option ℝ)) :
    spreadYpx (ms.map (fun s => k * s)) myy = spreadYpx ms myy := by
  unfold spreadYpx
  rw [nansumMul_map_mul, profileTotal_map_mul, mul_div_mul_left _ _ hk]

theorem spreadZpx_map_mul {k : ℝ} (hk : k ≠ 0) (ms : List ℝ) (mzz : List (Option ℝ)) :
    spreadZpx (ms.map (fun s => k * s)) mzz = spreadZpx ms mzz := by
  unfold spreadZpx
  rw [nansumMul_map_mul, profileTotal_map_mul, mul_div_mul_left _ _ hk]

theorem global_spreads_scale (P : Processor) {k : ℝ} (hk : 0 < k) (ms : List ℝ)
    (myy mzz : List (Option ℝ)) (xs : List ℝ) (ht : profileTotal ms ≠ 0) :
    calculate_global_spreads P (ms.map (fun s => k * s)) myy mzz xs =
      { calculate_global_spreads P ms myy mzz xs with
        axonal_volume := round2 (k * profileTotal ms)
        MMsum := ms.map (fun s => k * s) } := by
  have hkne : k ≠ 0 := ne_of_gt hk
  unfold calculate_global_spreads
  rw [if_neg (by rw [profileTotal_map_mul]; exact mul_ne_zero hkne ht), if_neg ht]
  simp only [spreadXpx_map_mul hkne, spreadYpx_map_mul hkne, spreadZpx_map_mul hkne,
    profileTotal_map_mul]

/-- The profile total of the aligned (PCA-rotated and 90°-standardized)
volume: the unrounded axonal-volume scalar of the pipeline. -/
def alignedTotal (V : Volume) : ℝ :=
  profileTotal (calculate_local_spreads (rot90 (rotate_image (normalizeLayout V)
    (calculate_pca_rotation_angle (normalizeLayout V)))) true).1

/-- C8 (amended): multiplying every voxel intensity by k > 0 with geometry
fixed leaves every spread metric returned by `process_image` unchanged (error
outcomes are also unchanged), while the input intensity sum and the unrounded
axonal-volume total scale by exactly k; the reported axonal volume is the
scaled total rounded to 2 decimals (`round2 (k * alignedTotal V)`), which need
not equal k times the reported unscaled value. -/
theorem intensity_scaling_spread_invariance (P : Processor) (V : Volume) (area k : ℝ)
    (hk : 0 < k) :
    sum3 (scaleVol k V) = k * sum3 V ∧
    (∀ e, process_image P V area = Except.error e →
      process_image P (scaleVol k V) area = Except.error e) ∧
    (∀ r, process_image P V area = Except.ok r →
      ∃ s, process_image P (scaleVol k V) area = Except.ok s ∧
        s.spread_x_pixel = r.spread_x_pixel ∧
        s.spread_y_pixel = r.spread_y_pixel ∧
        s.spread_z_pixel = r.spread_z_pixel ∧
        s.spread_xy_pixel = r.spread_xy_pixel ∧
        s.spread_xyz_pixel = r.spread_xyz_pixel ∧
        s.spread_x_um = r.spread_x_um ∧
        s.spread_y_um = r.spread_y_um ∧
        s.spread_z_um = r.spread_z_um ∧
        s.spread_xy_um = r.spread_xy_um ∧
        s.spread_xyz_um = r.spread_xyz_um ∧
        r.axonal_volume = round2 (alignedTotal V) ∧
        s.axonal_volume = round2 (k * alignedTotal V)) := by
  have hkne : k ≠ 0 := ne_of_gt hk
  refine ⟨sum3_scale k V, ?_, ?_⟩
  · intro e he
    unfold process_image at he ⊢
    rw [normalizeLayout_scale, pca_angle_scale hkne, rotate_image_scale]
    by_cases h1 : hasNegative (normalizeLayout V)
    · rw [if_pos h1] at he
      rw [if_pos ((hasNegative_scale hk _).mpr h1)]
      exact he
    · rw [if_neg h1] at he
      rw [if_neg (fun hc => h1 ((hasNegative_scale hk _).mp hc))]
      by_cases h2 : hasNegative (rotate_image (normalizeLayout V)
          (calculate_pca_rotation_angle (normalizeLayout V)))
      · rw [if_pos h2] at he
        rw [if_pos ((hasNegative_scale hk _).mpr h2)]
        exact he
      · rw [if_neg h2] at he
        exact absurd he (by simp)
  · intro r hr
    unfold process_image at hr ⊢
    rw [normalizeLayout_scale, pca_angle_scale hkne, rotate_image_scale, rot90_scale]
    by_cases h1 : hasNegative (normalizeLayout V)
    · rw [if_pos h1] at hr
      exact absurd hr (by simp)
    · rw [if_neg h1] at hr
      rw [if_neg (fun hc => h1 ((hasNegative_scale hk _).mp hc))]
      by_cases h2 : hasNegative (rotate_image (normalizeLayout V)
          (calculate_pca_rotation_angle (normalizeLayout V)))
      · rw [if_pos h2] at hr
        exact absurd hr (by simp)
      · rw [if_neg h2] at hr
        rw [if_neg (fun hc => h2 ((hasNegative_scale hk _).mp hc))]
        have hrr := Except.ok.inj hr
        subst hrr
        rw [local_spreads_scale_1, local_spreads_scale_2 hk, local_spreads_scale_3 hk,
          local_spreads_scale_4]
        by_cases htot : profileTotal (calculate_local_spreads (rot90
            (rotate_image (normalizeLayout V)
              (calculate_pca_rotation_angle (normalizeLayout V)))) true).1 = 0
        · have hg0 : calculate_global_spreads P
              ((calculate_local_spreads (rot90 (rotate_image (normalizeLayout V)
                (calculate_pca_rotation_angle (normalizeLayout V)))) true).1.map
                  (fun s => k * s))
              (calculate_local_spreads (rot90 (rotate_image (normalizeLayout V)
                (calculate_pca_rotation_angle (normalizeLayout V)))) true).2.1
              (calculate_local_spreads (rot90 (rotate_image (normalizeLayout V)
                (calculate_pca_rotation_angle (normalizeLayout V)))) true).2.2.1
              (calculate_local_spreads (rot90 (rotate_image (normalizeLayout V)
                (calculate_pca_rotation_angle (normalizeLayout V)))) true).2.2.2 =
              _get_empty_results := by
            unfold calculate_global_spreads
            rw [if_pos (by rw [profileTotal_map_mul, htot, mul_zero])]
          have hg1 : calculate_global_spreads P
              (calculate_local_spreads (rot90 (rotate_image (normalizeLayout V)
                (calculate_pca_rotation_angle (normalizeLayout V)))) true).1
              (calculate_local_spreads (rot90 (rotate_image (normalizeLayout V)
                (calculate_pca_rotation_angle (normalizeLayout V)))) true).2.1
              (calculate_local_spreads (rot90 (rotate_image (normalizeLayout V)
                (calculate_pca_rotation_angle (normalizeLayout V)))) true).2.2.1
              (calculate_local_spreads (rot90 (rotate_image (normalizeLayout V)
                (calculate_pca_rotation_angle (normalizeLayout V)))) true).2.2.2 =
              _get_empty_results := by
            unfold calculate_global_spreads
            rw [if_pos htot]
          have haz : round2 (alignedTotal V) = 0 := by
            unfold alignedTotal
            rw [htot, round2_zero]
          have hazk : round2 (k * alignedTotal V) = 0 := by
            unfold alignedTotal
            rw [htot, mul_zero, round2_zero]
          rw [hg0, hg1, haz, hazk]
          exact ⟨_, rfl, rfl, rfl, rfl, rfl, rfl, rfl, rfl, rfl, rfl, rfl, rfl, rfl⟩
        · rw [global_spreads_scale P hk _ _ _ _ htot]
          refine ⟨_, rfl, rfl, rfl, rfl, rfl, rfl, rfl, rfl, rfl, rfl, rfl, ?_, ?_⟩
          · show (calculate_global_spreads P _ _ _ _).axonal_volume = round2 (alignedTotal V)
            unfold calculate_global_spreads
            rw [if_neg htot]
            rfl
          · rfl

/-- C8 amended-claim witness: the invariance instantiated at a concrete
one-voxel volume with factor 2. -/
theorem intensity_scaling_spread_invariance_witness :
    (0 : ℝ) < 2 ∧
      sum3 (scaleVol 2 ⟨1, 1, 1, fun _ _ _ => 1⟩) = 2 * sum3 ⟨1, 1, 1, fun _ _ _ => 1⟩ :=
  ⟨by norm_num,
   (intensity_scaling_spread_invariance ⟨1, 1, 1⟩ ⟨1, 1, 1, fun _ _ _ => 1⟩ 1 2 (by norm_num)).1⟩

/- ### Single-voxel pipeline evaluation (for the C8 counterexample) -/

theorem rotRad_zero : rotRad 0 = 0 := by
  unfold rotRad
  ring

theorem rotOutNy_unit : rotOutNy 1 1 0 = 1 := by
  unfold rotOutNy
  rw [rotRad_zero, Real.sin_zero, Real.cos_zero]
  unfold ptp4
  rw [show (max (max (0 : ℝ) (0 * (1 : ℕ))) (max (1 * (1 : ℕ)) (1 * (1 : ℕ) + 0 * (1 : ℕ))) -
      min (min (0 : ℝ) (0 * (1 : ℕ))) (min (1 * (1 : ℕ)) (1 * (1 : ℕ) + 0 * (1 : ℕ))) + 1 / 2) =
      3 / 2 by norm_num]
  rw [show ⌊(3 / 2 : ℝ)⌋ = 1 from Int.floor_eq_iff.mpr (by norm_num)]
  rfl

theorem rotOutNx_unit : rotOutNx 1 1 0 = 1 := by
  unfold rotOutNx
  rw [rotRad_zero, Real.sin_zero, Real.cos_zero]
  unfold ptp4
  rw [show (max (max (0 : ℝ) (1 * (1 : ℕ))) (max (-0 * (1 : ℕ)) (-0 * (1 : ℕ) + 1 * (1 : ℕ))) -
      min (min (0 : ℝ) (1 * (1 : ℕ))) (min (-0 * (1 : ℕ)) (-0 * (1 : ℕ) + 1 * (1 : ℕ))) + 1 / 2) =
      3 / 2 by norm_num]
  rw [show ⌊(3 / 2 : ℝ)⌋ = 1 from Int.floor_eq_iff.mpr (by norm_num)]
  rfl

theorem rotOffY_unit : rotOffY 1 1 0 = 0 := by
  unfold rotOffY
  rw [rotRad_zero, Real.sin_zero, Real.cos_zero, rotOutNy_unit, rotOutNx_unit]
  norm_num

theorem rotOffX_unit : rotOffX 1 1 0 = 0 := by
  unfold rotOffX
  rw [rotRad_zero, Real.sin_zero, Real.cos_zero, rotOutNy_unit, rotOutNx_unit]
  norm_num

theorem rotSrcY_unit : rotSrcY 1 1 0 0 0 = 0 := by
  unfold rotSrcY
  rw [rotRad_zero, Real.sin_zero, Real.cos_zero, rotOffY_unit]
  norm_num

theorem rotSrcX_unit : rotSrcX 1 1 0 0 0 = 0 := by
  unfold rotSrcX
  rw [rotRad_zero, Real.sin_zero, Real.cos_zero, rotOffX_unit]
  norm_num

theorem rotate_unit_val (c : ℝ) :
    (rotate_image ⟨1, 1, 1, fun _ _ _ => c⟩ 0).val 0 0 0 = c := by
  show bilinear 1 1 (fun i j => c) (rotSrcY 1 1 0 0 0) (rotSrcX 1 1 0 0 0) = c
  rw [rotSrcY_unit, rotSrcX_unit]
  unfold bilinear
  have hpad : ∀ i j : ℤ, 0 ≤ i → i < 1 → 0 ≤ j → j < 1 →
      pad2 1 1 (fun i j => c) i j = c := by
    intro i j h1 h2 h3 h4
    unfold pad2
    rw [if_pos ⟨h1, by exact_mod_cast h2, h3, by exact_mod_cast h4⟩]
  simp only [Int.floor_zero, Int.cast_zero, sub_zero, sub_self]
  rw [hpad 0 0 le_rfl one_pos le_rfl one_pos]
  ring

theorem rotate_unit_not_neg (c : ℝ) (hc : 0 < c) :
    ¬hasNegative (rotate_image ⟨1, 1, 1, fun _ _ _ => c⟩ 0) := by
  rintro ⟨y, x, z, hy, hx, hz, hlt⟩
  have hy1 : y < 1 := by
    rwa [show (rotate_image (⟨1, 1, 1, fun _ _ _ => c⟩ : Volume) 0).ny = 1 from
      rotOutNy_unit] at hy
  have hx1 : x < 1 := by
    rwa [show (rotate_image (⟨1, 1, 1, fun _ _ _ => c⟩ : Volume) 0).nx = 1 from
      rotOutNx_unit] at hx
  have hz1 : z < 1 := hz
  have hy0 : y = 0 := by omega
  have hx0 : x = 0 := by omega
  have hz0 : z = 0 := by omega
  subst hy0
  subst hx0
  subst hz0
  rw [rotate_unit_val] at hlt
  exact absurd hlt (not_lt.mpr (le_of_lt hc))

theorem rot90_val_unit (c : ℝ) :
    (rot90 (rotate_image ⟨1, 1, 1, fun _ _ _ => c⟩ 0)).val 0 0 0 = c := by
  show (rotate_image ⟨1, 1, 1, fun _ _ _ => c⟩ 0).val 0
      ((rotate_image ⟨1, 1, 1, fun _ _ _ => c⟩ 0).nx - 1 - 0) 0 = c
  rw [show (rotate_image (⟨1, 1, 1, fun _ _ _ => c⟩ : Volume) 0).nx = 1 from rotOutNx_unit]
  exact rotate_unit_val c

theorem slab_unit (c : ℝ) :
    slabSum (rot90 (rotate_image ⟨1, 1, 1, fun _ _ _ => c⟩ 0)) 0 = c := by
  unfold slabSum
  rw [show (rot90 (rotate_image (⟨1, 1, 1, fun _ _ _ => c⟩ : Volume) 0)).ny = 1 from
    rotOutNx_unit]
  rw [show (rot90 (rotate_image (⟨1, 1, 1, fun _ _ _ => c⟩ : Volume) 0)).nz = 1 from rfl]
  rw [Finset.sum_range_one, Finset.sum_range_one]
  exact rot90_val_unit c

theorem slabColY_unit (c : ℝ) :
    slabColY (rot90 (rotate_image ⟨1, 1, 1, fun _ _ _ => c⟩ 0)) 0 0 = c := by
  unfold slabColY
  rw [show (rot90 (rotate_image (⟨1, 1, 1, fun _ _ _ => c⟩ : Volume) 0)).nz = 1 from rfl]
  rw [Finset.sum_range_one]
  exact rot90_val_unit c

theorem slabRowZ_unit (c : ℝ) :
    slabRowZ (rot90 (rotate_image ⟨1, 1, 1, fun _ _ _ => c⟩ 0)) 0 0 = c := by
  unfold slabRowZ
  rw [show (rot90 (rotate_image (⟨1, 1, 1, fun _ _ _ => c⟩ : Volume) 0)).ny = 1 from
    rotOutNx_unit]
  rw [Finset.sum_range_one]
  exact rot90_val_unit c

theorem localYY_unit (c : ℝ) (hc : 0 < c) :
    localYY (rot90 (rotate_image ⟨1, 1, 1, fun _ _ _ => c⟩ 0)) 0 = some 0 := by
  unfold localYY
  rw [slab_unit c, if_pos hc]
  congr 1
  unfold slabVarY slabMeanY
  rw [slab_unit c]
  rw [show (rot90 (rotate_image (⟨1, 1, 1, fun _ _ _ => c⟩ : Volume) 0)).ny = 1 from
    rotOutNx_unit]
  rw [Finset.sum_range_one, Finset.sum_range_one, slabColY_unit c]
  rw [show ((0 : ℕ) : ℝ) + 1 = 1 by norm_num]
  rw [one_mul, div_self (ne_of_gt hc)]
  norm_num

theorem localZZ_unit (c : ℝ) (hc : 0 < c) :
    localZZ (rot90 (rotate_image ⟨1, 1, 1, fun _ _ _ => c⟩ 0)) 0 = some 0 := by
  unfold localZZ
  rw [slab_unit c, if_pos hc]
  congr 1
  unfold slabVarZ slabMeanZ
  rw [slab_unit c]
  rw [show (rot90 (rotate_image (⟨1, 1, 1, fun _ _ _ => c⟩ : Volume) 0)).nz = 1 from rfl]
  rw [Finset.sum_range_one, Finset.sum_range_one, slabRowZ_unit c]
  rw [show ((0 : ℕ) : ℝ) + 1 = 1 by norm_num]
  rw [one_mul, div_self (ne_of_gt hc)]
  norm_num

theorem normalizeLayout_unit (c : ℝ) :
    normalizeLayout ⟨1, 1, 1, fun _ _ _ => c⟩ = ⟨1, 1, 1, fun _ _ _ => c⟩ := by
  unfold normalizeLayout
  rw [if_neg (by norm_num)]

theorem not_neg_unit (c : ℝ) (hc : 0 < c) : ¬hasNegative ⟨1, 1, 1, fun _ _ _ => c⟩ := by
  rintro ⟨y, x, z, _, _, _, hlt⟩
  exact absurd hlt (not_lt.mpr (le_of_lt hc))

theorem pca_angle_unit (c : ℝ) (hc : 0 < c) :
    calculate_pca_rotation_angle ⟨1, 1, 1, fun _ _ _ => c⟩ = 0 := by
  have hs : sumProjZ ⟨1, 1, 1, fun _ _ _ => c⟩ = c := by
    unfold sumProjZ projZ
    simp
  have hcx : centroidX ⟨1, 1, 1, fun _ _ _ => c⟩ = 0 := by
    unfold centroidX
    simp
  have hcy : centroidY ⟨1, 1, 1, fun _ _ _ => c⟩ = 0 := by
    unfold centroidY
    simp
  have hxx : covXX ⟨1, 1, 1, fun _ _ _ => c⟩ = 0 := by
    unfold covXX
    rw [hcx]
    simp
  have hyy : covYY ⟨1, 1, 1, fun _ _ _ => c⟩ = 0 := by
    unfold covYY
    rw [hcy]
    simp
  have hxy : covXY ⟨1, 1, 1, fun _ _ _ => c⟩ = 0 := by
    unfold covXY
    rw [hcx]
    simp
  unfold calculate_pca_rotation_angle
  rw [if_neg (by rw [hs]; exact ne_of_gt hc)]
  simp only [hxx, hyy, hxy]
  rw [show eig2 0 0 0 = ((0, 1, 0), (0, 0, 1)) from by unfold eig2; rw [if_pos rfl]]
  norm_num

theorem fluor_unit (c : ℝ) :
    calculate_fluorescence ⟨1, 1, 1⟩ ⟨1, 1, 1, fun _ _ _ => c⟩ 1 = (round2 c, round2 c) := by
  unfold calculate_fluorescence
  rw [show sum3 ⟨1, 1, 1, fun _ _ _ => c⟩ = c from by unfold sum3; simp]
  norm_num

theorem globals_unit (c : ℝ) (hc : 0 < c) :
    calculate_global_spreads ⟨1, 1, 1⟩ [c] [some 0] [some 0] [1] =
      ⟨0, 0, 0, 0, 0, 0, 0, 0, 0, 0, round2 c, [c], [some 0], [some 0]⟩ := by
  have ht : profileTotal [c] ≠ 0 := by
    unfold profileTotal
    simpa using ne_of_gt hc
  have htc : profileTotal [c] = c := by
    unfold profileTotal
    simp
  have hmean : profileMeanX [c] [1] = 1 := by
    unfold profileMeanX
    rw [htc]
    simp [List.zipWith]
    exact div_self (ne_of_gt hc)
  have hvar : profileVarX [c] [1] = 0 := by
    unfold profileVarX
    rw [hmean, htc]
    simp [List.zipWith]
  have hsx : spreadXpx [c] [1] = 0 := by
    unfold spreadXpx
    rw [hvar, Real.sqrt_zero]
  have hsy : spreadYpx [c] [some 0] = 0 := by
    unfold spreadYpx nansumMul
    simp [List.zipWith]
  have hsz : spreadZpx [c] [some 0] = 0 := by
    unfold spreadZpx nansumMul
    simp [List.zipWith]
  unfold calculate_global_spreads
  rw [if_neg ht]
  simp only [hsx, hsy, hsz, htc]
  norm_num [round2_zero]

theorem process_image_single_voxel (c : ℝ) (hc : 0 < c) :
    process_image ⟨1, 1, 1⟩ ⟨1, 1, 1, fun _ _ _ => c⟩ 1 =
      Except.ok ⟨⟨0, 0, 0, 0, 0, 0, 0, 0, 0, 0, round2 c, [c], [some 0], [some 0]⟩,
        round2 c, round2 c, 0, 90⟩ := by
  unfold process_image
  rw [normalizeLayout_unit, pca_angle_unit c hc]
  rw [if_neg (not_neg_unit c hc), if_neg (rotate_unit_not_neg c hc)]
  have hl1 : (calculate_local_spreads (rot90
      (rotate_image ⟨1, 1, 1, fun _ _ _ => c⟩ 0)) true).1 = [c] := by
    show (List.range (rot90 (rotate_image (⟨1, 1, 1, fun _ _ _ => c⟩ : Volume) 0)).nx).map
      (slabSum (rot90 (rotate_image ⟨1, 1, 1, fun _ _ _ => c⟩ 0))) = [c]
    rw [show (rot90 (rotate_image (⟨1, 1, 1, fun _ _ _ => c⟩ : Volume) 0)).nx = 1 from
      rotOutNy_unit]
    rw [show List.range 1 = [0] from by simp [List.range_succ]]
    rw [List.map_cons, List.map_nil, slab_unit c]
  have hl2 : (calculate_local_spreads (rot90
      (rotate_image ⟨1, 1, 1, fun _ _ _ => c⟩ 0)) true).2.1 = [some 0] := by
    show (List.range (rot90 (rotate_image (⟨1, 1, 1, fun _ _ _ => c⟩ : Volume) 0)).nx).map
      (localYY (rot90 (rotate_image ⟨1, 1, 1, fun _ _ _ => c⟩ 0))) = [some 0]
    rw [show (rot90 (rotate_image (⟨1, 1, 1, fun _ _ _ => c⟩ : Volume) 0)).nx = 1 from
      rotOutNy_unit]
    rw [show List.range 1 = [0] from by simp [List.range_succ]]
    rw [List.map_cons, List.map_nil, localYY_unit c hc]
  have hl3 : (calculate_local_spreads (rot90
      (rotate_image ⟨1, 1, 1, fun _ _ _ => c⟩ 0)) true).2.2.1 = [some 0] := by
    show (List.range (rot90 (rotate_image (⟨1, 1, 1, fun _ _ _ => c⟩ : Volume) 0)).nx).map
      (localZZ (rot90 (rotate_image ⟨1, 1, 1, fun _ _ _ => c⟩ 0))) = [some 0]
    rw [show (rot90 (rotate_image (⟨1, 1, 1, fun _ _ _ => c⟩ : Volume) 0)).nx = 1 from
      rotOutNy_unit]
    rw [show List.range 1 = [0] from by simp [List.range_succ]]
    rw [List.map_cons, List.map_nil, localZZ_unit c hc]
  have hl4 : (calculate_local_spreads (rot90
      (rotate_image ⟨1, 1, 1, fun _ _ _ => c⟩ 0)) true).2.2.2 = [1] := by
    show (List.range (rot90 (rotate_image (⟨1, 1, 1, fun _ _ _ => c⟩ : Volume) 0)).nx).map
      (fun i => (i : ℝ) + 1) = [1]
    rw [show (rot90 (rotate_image (⟨1, 1, 1, fun _ _ _ => c⟩ : Volume) 0)).nx = 1 from
      rotOutNy_unit]
    rw [show List.range 1 = [0] from by simp [List.range_succ]]
    simp
  rw [hl1, hl2, hl3, hl4, globals_unit c hc, fluor_unit c, round2_zero]

/-- C8 counterexample: on a single 0.013-intensity voxel, doubling the
intensity doubles the intensity sum exactly, yet the reported axonal volume
goes from round2(0.013) = 0.01 to round2(0.026) = 0.03 ≠ 2 × 0.01: because of
the 2-decimal reporting rounding the axonal-volume metric does NOT scale by
the same factor as the intensity sum.  (All spread metrics are 0 in both runs,
unchanged, as the claim states.) -/
theorem intensity_scaling_axonal_rounding_counterexample :
    process_image ⟨1, 1, 1⟩ ⟨1, 1, 1, fun _ _ _ => 13 / 1000⟩ 1 =
      Except.ok ⟨⟨0, 0, 0, 0, 0, 0, 0, 0, 0, 0, 1 / 100, [13 / 1000], [some 0], [some 0]⟩,
        1 / 100, 1 / 100, 0, 90⟩ ∧
    process_image ⟨1, 1, 1⟩ (scaleVol 2 ⟨1, 1, 1, fun _ _ _ => 13 / 1000⟩) 1 =
      Except.ok ⟨⟨0, 0, 0, 0, 0, 0, 0, 0, 0, 0, 3 / 100, [2 * (13 / 1000)], [some 0], [some 0]⟩,
        3 / 100, 3 / 100, 0, 90⟩ ∧
    sum3 (scaleVol 2 ⟨1, 1, 1, fun _ _ _ => 13 / 1000⟩) =
      2 * sum3 ⟨1, 1, 1, fun _ _ _ => 13 / 1000⟩ ∧
    (3 : ℝ) / 100 ≠ 2 * (1 / 100) := by
  refine ⟨?_, ?_, sum3_scale 2 _, by norm_num⟩
  · have h := process_image_single_voxel (13 / 1000) (by norm_num)
    rwa [round2_13_over_1000] at h
  · have h := process_image_single_voxel (2 * (13 / 1000)) (by norm_num)
    rw [show round2 (2 * (13 / 1000 : ℝ)) = 3 / 100 from by
      rw [show (2 : ℝ) * (13 / 1000) = 26 / 1000 by norm_num]
      exact round2_26_over_1000] at h
    exact h

end MorphoScope
